import Mathlib

/-!
# Realization-and-binding core of the Seq compiler

A shallow embedding of

* `LLVMContext::realizeType`, `LLVMContext::find`, `LLVMContext::addBlock`,
  `LLVMContext::popBlock` (compiler/parser/ast/codegen_ctx.cpp),
* `SimplifyVisitor::apply` (compiler/parser/visitors/simplify/simplify.cpp),

followed by theorems about them.  C++ pointers are modelled by explicit
addresses: a backend type handle is an address into a store of backend type
objects, `nullptr` is `none`.
-/

namespace Seq

/-! ## Backend types (seq::types) -/

/-- A `seq::types::Type *`: either the global singleton `seq::types::Str` or the
address of a type object built by one of the backend factories. -/
inductive Handle where
  | str
  | obj (addr : Nat)
deriving DecidableEq, Repr

/-- A backend type object as built by the factories `IntNType::get`,
`ArrayType::get`, `PtrType::get`, `GenType::get`, `OptionalType::get`,
`RecordType::get` and `RefType::get` (+ `setContents`, `setDone`). -/
inductive BType where
  | intN (len : Int) (sign : Bool)
  | array (base : Handle)
  | ptr (base : Handle)
  | gen (base : Handle)
  | optional (base : Handle)
  | record (types : List Handle) (names : List String) (name : String)
  | ref (name : String) (contents : Option Handle) (done : Bool)
deriving DecidableEq, Repr

/-! ## Front-end class types and the realization cache -/

mutual
/-- A `types::ClassType`: canonical `name`, the result of `realizeString()`,
`isRecord()`, `canRealize()` and the `explicits` (generic arguments). -/
inductive ClassType where
  | mk (name : String) (realizeStr : String) (record : Bool) (realizable : Bool)
      (explicits : List Generic)
/-- The type of one entry of `explicits`: a static integer (`getStatic()`), a
class type (`getClass()`), or a type that is neither (both return null). -/
inductive Generic where
  | static (value : Int)
  | cls (t : ClassType)
  | other
end

namespace ClassType

def name : ClassType → String
  | mk n _ _ _ _ => n

def realizeString : ClassType → String
  | mk _ r _ _ _ => r

def isRecord : ClassType → Bool
  | mk _ _ b _ _ => b

def canRealize : ClassType → Bool
  | mk _ _ _ b _ => b

def explicits : ClassType → List Generic
  | mk _ _ _ _ e => e

end ClassType

/-- One `ClassRealization` record of the cache; `handle = none` is the null
handle of a record that has not been bound yet. -/
structure ClassRealization where
  fullName : String
  type : ClassType
  args : List (String × ClassType)
  handle : Option Handle

/-- The map `classRealizations`: canonical name ↦ (realize-string ↦ record). -/
abbrev ClassRealizations := List (String × List (String × ClassRealization))

/-- The part of the world `realizeType` reads and writes: the realization cache
and the store of backend type objects built so far (address = position). -/
structure RState where
  classRealizations : ClassRealizations
  heap : List BType

/-- Ways `realizeType` can stop without a handle: a failed `assert`, or the
recursion budget of the model running out. -/
inductive Fault where
  | fuel
  | assertRealizable
  | assertName
  | assertRealization
  | assertArity
  | assertRange
deriving DecidableEq, Repr

/-- The function `map::find` on an association list. -/
def mapFind {β : Type} (k : String) : List (String × β) → Option β
  | [] => none
  | (k', v) :: rest => if k' = k then some v else mapFind k rest

/-- Apply `f` to the value stored under key `k` (a write through an iterator). -/
def mapModify {β : Type} (k : String) (f : β → β) : List (String × β) → List (String × β)
  | [] => []
  | (k', v) :: rest => if k' = k then (k', f v) :: rest else (k', v) :: mapModify k f rest

/-- The lookup `classRealizations.find(name)->second.find(realizeString)`. -/
def findRealization (cr : ClassRealizations) (name rs : String) : Option ClassRealization :=
  match mapFind name cr with
  | none => none
  | some inner => mapFind rs inner

/-- The assignment `real.handle = h` for the record under `(name, rs)`. -/
def setHandle (st : RState) (name rs : String) (h : Handle) : RState :=
  { st with classRealizations :=
      mapModify name (mapModify rs (fun r => { r with handle := some h })) st.classRealizations }

/-- A backend factory call: builds a new type object and returns its address. -/
def alloc (st : RState) (b : BType) : Handle × RState :=
  (Handle.obj st.heap.length, { st with heap := st.heap ++ [b] })

/-- The method `RefType::setContents`. -/
def setContents (st : RState) (cls : Handle) (body : Handle) : RState :=
  match cls with
  | Handle.obj a =>
    match st.heap.get? a with
    | some (BType.ref n _ d) => { st with heap := st.heap.set a (BType.ref n (some body) d) }
    | _ => st
  | Handle.str => st

/-- The method `RefType::setDone`. -/
def setDone (st : RState) (cls : Handle) : RState :=
  match cls with
  | Handle.obj a =>
    match st.heap.get? a with
    | some (BType.ref n c _) => { st with heap := st.heap.set a (BType.ref n c true) }
    | _ => st
  | Handle.str => st

/-- The method `std::string::substr(pos, len)`. -/
def substr (s : String) (pos len : Nat) : String :=
  String.mk ((s.data.drop pos).take len)

/-- The function `chop`: drops a leading `#`. -/
def chop (s : String) : String :=
  if s.data.length ≠ 0 ∧ s.data.head? = some '#' then String.mk (s.data.drop 1) else s

/-- The loop over `t->explicits`: statics are collected, class arguments are
realized (left to right) through `rt`; a generic that is neither makes the
recursive call's `assert(t && ...)` fail. Returns `(types, statics, state)`. -/
def explicitsLoop (rt : RState → ClassType → Except Fault (Handle × RState)) :
    RState → List Generic → Except Fault (List Handle × List Int × RState)
  | st, [] => .ok ([], [], st)
  | st, Generic.static v :: gs =>
    match explicitsLoop rt st gs with
    | .error e => .error e
    | .ok (ts, ss, st') => .ok (ts, v :: ss, st')
  | st, Generic.cls c :: gs =>
    match rt st c with
    | .error e => .error e
    | .ok (h, st1) =>
      match explicitsLoop rt st1 gs with
      | .error e => .error e
      | .ok (ts, ss, st') => .ok (h :: ts, ss, st')
  | _, Generic.other :: _ => .error Fault.assertRealizable

/-- The loop over `real.args`: returns `(names, types, state)`. -/
def argsLoop (rt : RState → ClassType → Except Fault (Handle × RState)) :
    RState → List (String × ClassType) → Except Fault (List String × List Handle × RState)
  | st, [] => .ok ([], [], st)
  | st, (nm, c) :: ms =>
    match rt st c with
    | .error e => .error e
    | .ok (h, st1) =>
      match argsLoop rt st1 ms with
      | .error e => .error e
      | .ok (ns, ts, st') => .ok (nm :: ns, h :: ts, st')

/-- The branch of `realizeType` for `#array`, `ptr`, `generator`, `optional`:
asserts one type argument and no static, then calls the factory `mk`. -/
def unaryFamily (st : RState) (name rs : String) (types : List Handle) (statics : List Int)
    (mk : Handle → BType) : Except Fault (Handle × RState) :=
  match types, statics with
  | [b], [] =>
    let (h, st1) := alloc st (mk b)
    .ok (h, setHandle st1 name rs h)
  | _, _ => .error Fault.assertArity

/-- The function `LLVMContext::realizeType`; the first argument bounds the depth of
the recursion. -/
def realizeType : Nat → RState → ClassType → Except Fault (Handle × RState)
  | 0, _, _ => .error Fault.fuel
  | n + 1, st, t =>
    if t.canRealize = false then .error Fault.assertRealizable else
    match mapFind t.name st.classRealizations with
    | none => .error Fault.assertName
    | some inner =>
      match mapFind t.realizeString inner with
      | none => .error Fault.assertRealization
      | some real =>
        match real.handle with
        | some h => .ok (h, st)
        | none =>
          match explicitsLoop (realizeType n) st t.explicits with
          | .error e => .error e
          | .ok (types, statics, st1) =>
            if t.name = "#str" then
              .ok (Handle.str, setHandle st1 t.name t.realizeString Handle.str)
            else if t.name = "Int" ∨ t.name = "UInt" then
              match statics, types with
              | [w], [] =>
                if 1 ≤ w ∧ w ≤ 2048 then
                  let (h, st2) := alloc st1 (BType.intN w (decide (t.name = "Int")))
                  .ok (h, setHandle st2 t.name t.realizeString h)
                else .error Fault.assertRange
              | _, _ => .error Fault.assertArity
            else if t.name = "#array" then
              unaryFamily st1 t.name t.realizeString types statics BType.array
            else if t.name = "ptr" then
              unaryFamily st1 t.name t.realizeString types statics BType.ptr
            else if t.name = "generator" then
              unaryFamily st1 t.name t.realizeString types statics BType.gen
            else if t.name = "optional" then
              unaryFamily st1 t.name t.realizeString types statics BType.optional
            else
              match argsLoop (realizeType n) st1 real.args with
              | .error e => .error e
              | .ok (names, mtypes, st2) =>
                if t.isRecord then
                  let name := if substr t.name 0 9 = "#__tuple_" then "" else t.name
                  let (h, st3) := alloc st2 (BType.record mtypes names (chop name))
                  .ok (h, setHandle st3 t.name t.realizeString h)
                else
                  let (cls, st3) := alloc st2 (BType.ref (chop t.name) none false)
                  let (body, st4) := alloc st3 (BType.record mtypes names "")
                  let st5 := setDone (setContents st4 cls body) cls
                  .ok (cls, setHandle st5 t.name t.realizeString cls)

/-- The backend type object a handle points to, if it was built by a factory. -/
def deref (st : RState) : Handle → Option BType
  | Handle.obj a => st.heap.get? a
  | Handle.str => none

/-! ## Scoped symbol context (LLVMContext) -/

/-- The address of a `seq::Block`, `seq::BaseFunc`, `seq::Var` or `seq::Func`. -/
abbrev Ptr := Nat

/-- An `LLVMItem::Item`: `Var`, `Class`, `Func` or `Import`, each with its owning
base and its global flag. -/
inductive Item where
  | var (v : Ptr) (base : Option Ptr) (global : Bool)
  | cls (t : Option Handle) (base : Option Ptr) (global : Bool)
  | func (f : Option Ptr) (base : Option Ptr) (global : Bool)
  | imp (file : String) (base : Option Ptr) (global : Bool)
deriving DecidableEq, Repr

namespace Item

def getBase : Item → Option Ptr
  | var _ b _ => b
  | cls _ b _ => b
  | func _ b _ => b
  | imp _ b _ => b

/-- The test `CAST(i, LLVMItem::Var)`. -/
def isVar : Item → Bool
  | var _ _ _ => true
  | _ => false

end Item

/-- The fields of an `LLVMContext` that lookup and block handling use. `scopes`
holds the bindings of the base class `Context<T>`, innermost scope first and,
within a scope, latest binding first. -/
structure LLVMContext where
  filename : String
  scopes : List (List (String × Item))
  blocks : List (Option Ptr)
  bases : List (Option Ptr)
  topBlockIndex : Nat
  topBaseIndex : Nat
deriving DecidableEq, Repr

/-- An `ImportContext::Import`, as far as lookup needs it. -/
structure Import where
  filename : String
  lctx : LLVMContext

/-- The table behind `imports->getImport`. -/
abbrev ImportContext := List (String × Import)

def getImport (imports : ImportContext) (key : String) : Option Import :=
  mapFind key imports

namespace LLVMContext

/-- Modelled from the spec: `Context<T>::find(name)` of the base class (its header is
not among the sources): the search walks the scopes from innermost to outermost
and returns the first binding of the name. -/
def baseFind : List (List (String × Item)) → String → Option Item
  | [], _ => none
  | sc :: rest, name =>
    match mapFind name sc with
    | some it => some it
    | none => baseFind rest name

/-- Modelled from the spec: `getBase()` (declared in the header, not among the
sources): the current base, `bases[topBaseIndex]`. -/
def getBase (c : LLVMContext) : Option Ptr :=
  c.bases.getD c.topBaseIndex none

/-- Modelled from the spec: `getBlock()`, the current block `blocks[topBlockIndex]`. -/
def getBlock (c : LLVMContext) : Option Ptr :=
  c.blocks.getD c.topBlockIndex none

/-- The body of `LLVMContext::find`; `self` stands for the method `find` itself in
the call `stdlib->lctx->find(name, onlyLocal, false)`. -/
def findBody (imports : ImportContext)
    (self : LLVMContext → String → Bool → Bool → Option Item)
    (c : LLVMContext) (name : String) (onlyLocal checkStdlib : Bool) : Option Item :=
  match baseFind c.scopes name with
  | some it =>
    if it.isVar = true ∧ onlyLocal = true then
      (if c.getBase = it.getBase then some it else none)
    else some it
  | none =>
    match getImport imports "" with
    | some stdlib =>
      if checkStdlib = true then self stdlib.lctx name onlyLocal false else none
    | none => none

/-- The function `LLVMContext::find`. Its only recursive call passes
`checkStdlib = false`, and with that argument the body makes no call, so the
body unfolded twice is the function (see `find_unfold`). -/
def find (imports : ImportContext) :
    LLVMContext → String → Bool → Bool → Option Item :=
  findBody imports (findBody imports (fun _ _ _ _ => none))

/-- Modelled from the spec: `Context<T>::add(name, item)` of the base class: inserts
the entry into the innermost scope. -/
def add (c : LLVMContext) (name : String) (it : Item) : LLVMContext :=
  match c.scopes with
  | [] => { c with scopes := [[(name, it)]] }
  | sc :: rest => { c with scopes := ((name, it) :: sc) :: rest }

/-- Modelled from the spec: `isToplevel()` (declared in the header): the context is
at module top level, no function body has been entered. -/
def isToplevel (c : LLVMContext) : Bool :=
  c.bases.length == 1

/-- The function `LLVMContext::addVar`. -/
def addVar (c : LLVMContext) (name : String) (v : Ptr) (global : Bool) : LLVMContext :=
  c.add name (Item.var v c.getBase (global || c.isToplevel))

/-- The function `LLVMContext::addFunc`. -/
def addFunc (c : LLVMContext) (name : String) (f : Option Ptr) (global : Bool) : LLVMContext :=
  c.add name (Item.func f c.getBase (global || c.isToplevel))

/-- The function `LLVMContext::addImport`. -/
def addImport (c : LLVMContext) (name : String) (file : String) (global : Bool) : LLVMContext :=
  c.add name (Item.imp file c.getBase (global || c.isToplevel))

/-- The function `LLVMContext::addBlock`. -/
def addBlock (c : LLVMContext) (newBlock newBase : Option Ptr) : LLVMContext :=
  let c1 := { c with scopes := [] :: c.scopes }
  let c2 := if newBlock.isSome then { c1 with topBlockIndex := c1.blocks.length } else c1
  let c3 := { c2 with blocks := c2.blocks ++ [newBlock] }
  let c4 := if newBase.isSome then { c3 with topBaseIndex := c3.bases.length } else c3
  { c4 with bases := c4.bases ++ [newBase] }

/-- The loop `while (i && !v[i]) i--`. -/
def scanDown (v : List (Option Ptr)) : Nat → Nat
  | 0 => 0
  | i + 1 => if (v.getD (i + 1) none).isNone then scanDown v i else i + 1

/-- The function `LLVMContext::popBlock`. Popping the last remaining entry makes
`size() - 1` wrap around and the loop read out of bounds: no result (`none`). -/
def popBlock (c : LLVMContext) : Option LLVMContext :=
  if c.bases.length ≤ 1 ∨ c.blocks.length ≤ 1 then none
  else
    let bases := c.bases.dropLast
    let topBase := scanDown bases (bases.length - 1)
    let blocks := c.blocks.dropLast
    let topBlock := scanDown blocks (blocks.length - 1)
    some { c with bases := bases, topBaseIndex := topBase, blocks := blocks,
                  topBlockIndex := topBlock, scopes := c.scopes.drop 1 }

/-- The constructor `LLVMContext::LLVMContext`. -/
def new (filename : String) (block base : Option Ptr) : LLVMContext :=
  let c : LLVMContext :=
    { filename := filename, scopes := [[]], blocks := [], bases := [],
      topBlockIndex := 0, topBaseIndex := 0 }
  if block.isSome then c.addBlock block base else c

end LLVMContext

/-- One call in a sequence of `addBlock` / `popBlock` calls. -/
inductive BlockOp where
  | add (newBlock newBase : Option Ptr)
  | pop
deriving DecidableEq, Repr

/-- Runs a sequence of calls, left to right. -/
def runOps : List BlockOp → LLVMContext → Option LLVMContext
  | [], c => some c
  | BlockOp.add b f :: rest, c => runOps rest (c.addBlock b f)
  | BlockOp.pop :: rest, c =>
    match c.popBlock with
    | none => none
    | some c1 => runOps rest c1

/-- The nesting depth after a sequence of calls started at depth `d`; `none` when
some `popBlock` has no earlier unmatched `addBlock` of the sequence. -/
def depthAfter : Nat → List BlockOp → Option Nat
  | d, [] => some d
  | d, BlockOp.add _ _ :: rest => depthAfter (d + 1) rest
  | 0, BlockOp.pop :: _ => none
  | d + 1, BlockOp.pop :: rest => depthAfter d rest

/-- The index `i` holds a non-null entry of `v` and no greater index does. -/
def IsTopNonNull (v : List (Option Ptr)) (i : Nat) : Prop :=
  i < v.length ∧ (v.getD i none).isSome = true ∧
    ∀ j, i < j → j < v.length → v.getD j none = none

/-! ## The simplification pass (SimplifyVisitor::apply) -/

/-- Expressions that `apply` builds itself. -/
inductive Expr where
  | id (name : String)
  | str (value : String)
  | index (e : Expr) (idx : Expr)
deriving DecidableEq, Repr

/-- A generic parameter `Param{name, type, deflt}` of a class statement. -/
structure Param where
  name : String
  type : Option Expr
  deflt : Option Expr
deriving DecidableEq, Repr

/-- Statements: the three kinds `apply` builds itself, and `node` for any other
tree (what the parser or `transform` returns), identified by a number. -/
inductive Stmt where
  | cls (name : String) (generics : List Param) (attributes : List (String × String))
  | assign (lhs : Expr) (rhs : Option Expr) (type : Option Expr)
  | suite (stmts : List Stmt)
  | node (id : Nat)

/-- The `Preamble`: hoisted type declarations, globals and generated functions. -/
structure Preamble where
  types : List Stmt
  globals : List Stmt
  functions : List Stmt

/-- The result of `make_shared<Preamble>()`. -/
def Preamble.empty : Preamble := { types := [], globals := [], functions := [] }

/-- A `SimplifyContext`: the fields `apply` assigns, and `inner` for the symbol
table and the canonical-name counters behind `add` and `generateCanonicalName`. -/
structure SimplifyContext (σ : Type) where
  filename : String
  moduleName : String
  isStdlibLoading : Bool
  inner : σ

/-- A record of `cache->imports`: the path and the context pointer. -/
structure ImportRec where
  path : String
  ctx : Option Nat
deriving DecidableEq, Repr

/-- The shared `Cache`. -/
structure Cache where
  module : Option String
  argv0 : String
  imports : List (String × ImportRec)
  classes : List (String × Stmt)
  age : Nat

/-- The cache together with the store of the contexts that `shared_ptr`s point to
(address = position). -/
structure World (σ : Type) where
  cache : Cache
  ctxs : List (SimplifyContext σ)

/-- The value of `STDLIB_IMPORT`, the reserved key of the standard library. -/
def STDLIB_IMPORT : String := ""

/-- The value of `MODULE_MAIN`. -/
def MODULE_MAIN : String := "__main__"

/-- The kind `SimplifyItem::Type` and its siblings. -/
inductive SimplifyItemKind where
  | Func
  | Type
  | Var
deriving DecidableEq, Repr

/-- The collaborators of `apply` whose code is not part of it: the constants
`STDLIB_INTERNAL_MODULE`, `ATTR_INTERNAL`, `ATTR_TUPLE`, `ATTR_TRAIT`, the
`SimplifyContext` constructor and its methods `generateCanonicalName` and `add`,
`getImportFile`, the parser, `stoll`, and `SimplifyVisitor(ctx, preamble).transform`,
which may change the preamble, the cache and every context, or throw. -/
structure Externals (σ : Type) where
  stdlibInternalModule : String
  attrInternal : String
  attrTuple : String
  attrTrait : String
  newContext : String → SimplifyContext σ
  generateCanonicalName : SimplifyContext σ → String → String × SimplifyContext σ
  add : SimplifyContext σ → SimplifyItemKind → String → String → Bool → Bool → SimplifyContext σ
  getImportFile : String → String → String → Bool → String
  parseCode : String → String → Except String Stmt
  parseFile : String → Except String Stmt
  stoll : String → Option Int
  transform : Nat → Preamble → World σ → Stmt → Except String (Stmt × Preamble × World σ)

/-- The test `in(map, key)`. -/
def mapHas {β : Type} (k : String) (m : List (String × β)) : Bool :=
  (mapFind k m).isSome

/-- The assignment `map[k] = v`. -/
def mapSet {β : Type} (k : String) (v : β) : List (String × β) → List (String × β)
  | [] => [(k, v)]
  | (k', v') :: rest => if k' = k then (k', v) :: rest else (k', v') :: mapSet k v rest

/-- A call `ctx->method(...)` through the context pointer `p` that returns `α` and
changes the context. -/
def onCtx {σ α : Type} (w : World σ) (p : Nat)
    (f : SimplifyContext σ → α × SimplifyContext σ) : Except String (α × World σ) :=
  match w.ctxs.get? p with
  | none => .error "null context"
  | some c => .ok ((f c).1, { w with ctxs := w.ctxs.set p (f c).2 })

/-- The statements `canonical = stdlib->generateCanonicalName(name);
stdlib->add(SimplifyItem::Type, name, canonical, true);`. -/
def declareType {σ : Type} (ext : Externals σ) (w : World σ) (p : Nat) (name : String) :
    Except String (String × World σ) :=
  onCtx w p (fun c =>
    let r := ext.generateCanonicalName c name
    (r.1, ext.add r.2 SimplifyItemKind.Type name r.1 true false))

/-- The loop over the simple POD types: each gets a canonical name, a class
statement with attributes internal and tuple in `cache->classes`, and a clone of
it at the end of `preamble->types`. -/
def addSimplePods {σ : Type} (ext : Externals σ) (p : Nat) :
    List String → Preamble → World σ → Except String (Preamble × World σ)
  | [], pre, w => .ok (pre, w)
  | name :: rest, pre, w =>
    match declareType ext w p name with
    | .error e => .error e
    | .ok (canonical, w1) =>
      let ast := Stmt.cls canonical [] [(ext.attrInternal, ""), (ext.attrTuple, "")]
      let w2 := { w1 with cache := { w1.cache with classes := mapSet canonical ast w1.cache.classes } }
      addSimplePods ext p rest { pre with types := pre.types ++ [ast] } w2

/-- The loop over the generic POD types. -/
def addGenericPods {σ : Type} (ext : Externals σ) (p : Nat) :
    List String → Preamble → World σ → Except String (Preamble × World σ)
  | [], pre, w => .ok (pre, w)
  | name :: rest, pre, w =>
    match declareType ext w p name with
    | .error e => .error e
    | .ok (canonical, w1) =>
      match onCtx w1 p (fun c => ext.generateCanonicalName c "T") with
      | .error e => .error e
      | .ok (genName, w2) =>
        let generics : List Param :=
          if name = "Int" ∨ name = "UInt" then [⟨genName, some (Expr.id "int"), none⟩]
          else [⟨genName, none, none⟩]
        let attrs0 := [(ext.attrInternal, ""), (ext.attrTuple, "")]
        let attrs := if name = "Generator" then mapSet ext.attrTrait "" attrs0 else attrs0
        let c := Stmt.cls canonical generics attrs
        let pre1 := { pre with types := pre.types ++ [c] }
        let w3 := { w2 with cache := { w2.cache with classes := mapSet canonical c w2.cache.classes } }
        addGenericPods ext p rest pre1 w3

/-- The loop that reserves the static identifiers. -/
def reserveNames {σ : Type} (ext : Externals σ) (p : Nat) :
    List String → World σ → Except String (World σ)
  | [], w => .ok w
  | name :: rest, w =>
    match onCtx w p (fun c => ext.generateCanonicalName c name) with
    | .error e => .error e
    | .ok (_, w1) => reserveNames ext p rest w1

/-- The string `baseTypeCode`. -/
def baseTypeCode : String :=
  "@internal\n@tuple\nclass pyobj:\n  p: Ptr[byte]\n" ++
  "@internal\n@tuple\nclass str:\n  ptr: Ptr[byte]\n  len: int\n"

/-- The block of `apply` guarded by `if (!in(cache->imports, STDLIB_IMPORT))`: loads
the standard library. Returns the statements pushed onto `stmts`, the preamble
and the new world. The path's `size()` is its size in bytes; `substr` with a
start beyond the size throws `out_of_range`. The two `substr` calls cut at the
ASCII ending `__init__.seq`, where counting bytes and counting characters from
the end give the same cut. -/
def bootstrap {σ : Type} (ext : Externals σ) (w : World σ) (barebones : Bool) :
    Except String (List Stmt × Preamble × World σ) :=
  let stdlib := w.ctxs.length
  let w1 := { w with ctxs := w.ctxs ++ [ext.newContext STDLIB_IMPORT] }
  let path0 := ext.getImportFile w1.cache.argv0 ext.stdlibInternalModule "" true
  if path0.utf8ByteSize = 0 then .error "cannot load standard library"
  else if path0.utf8ByteSize < 12 then .error "out_of_range"
  else if substr path0 (path0.length - 12) path0.length ≠ "__init__.seq" then
    .error "cannot load standard library"
  else
    let stdlibPath :=
      if barebones then substr path0 0 (path0.length - 5) ++ "test__.seq" else path0
    match onCtx w1 stdlib (fun c => ((), { c with filename := stdlibPath })) with
    | .error e => .error e
    | .ok (_, w2) =>
    let w3 := { w2 with cache := { w2.cache with
                  imports := mapSet STDLIB_IMPORT ⟨stdlibPath, some stdlib⟩ w2.cache.imports } }
    match declareType ext w3 stdlib "__internal__" with
    | .error e => .error e
    | .ok (canonical, w4) =>
    let ast := Stmt.cls canonical [] []
    let w5 := { w4 with cache := { w4.cache with classes := mapSet canonical ast w4.cache.classes } }
    let pre1 : Preamble := { Preamble.empty with types := Preamble.empty.types ++ [ast] }
    match addSimplePods ext stdlib ["void", "bool", "byte", "int", "float", "T.None"] pre1 w5 with
    | .error e => .error e
    | .ok (pre2, w6) =>
    match addGenericPods ext stdlib ["Ptr", "Generator", "Optional", "Int", "UInt"] pre2 w6 with
    | .error e => .error e
    | .ok (pre3, w7) =>
    match reserveNames ext stdlib ["staticlen", "compile_error", "isinstance", "hasattr"] w7 with
    | .error e => .error e
    | .ok w8 =>
    match onCtx w8 stdlib
        (fun c => ((), { c with isStdlibLoading := true, moduleName := "__internal__" })) with
    | .error e => .error e
    | .ok (_, w9) =>
    match ext.parseCode stdlibPath baseTypeCode with
    | .error e => .error e
    | .ok baseAst =>
    match ext.transform stdlib pre3 w9 baseAst with
    | .error e => .error e
    | .ok (_, pre4, w10) =>
    match onCtx w10 stdlib (fun c => ((), { c with filename := stdlibPath })) with
    | .error e => .error e
    | .ok (_, w11) =>
    match ext.parseFile stdlibPath with
    | .error e => .error e
    | .ok stdAst =>
    match ext.transform stdlib pre4 w11 stdAst with
    | .error e => .error e
    | .ok (stdT, pre5, w12) =>
    let stmts := [stdT]
    let argv := Stmt.assign (Expr.id "__argv__") none
                  (some (Expr.index (Expr.id "Array") (Expr.id "str")))
    match ext.transform stdlib pre5 w12 argv with
    | .error e => .error e
    | .ok (argvT, pre6, w13) =>
    let pre7 := { pre6 with globals := pre6.globals ++ [argvT] }
    match onCtx w13 stdlib (fun c => ((), { c with isStdlibLoading := false })) with
    | .error e => .error e
    | .ok (_, w14) => .ok (stmts, pre7, w14)

/-- The command-line defines: name ↦ (text, value). -/
abbrev Defines := List (String × String × Int)

/-- The loop over `defines`; a value that `stoll` rejects is an error. -/
def loadDefines {σ : Type} (ext : Externals σ) (p : Nat) :
    Defines → Defines → World σ → Except String (Defines × World σ)
  | [], newDefines, w => .ok (newDefines, w)
  | (name, text, _) :: rest, newDefines, w =>
    match onCtx w p (fun c => ext.generateCanonicalName c name) with
    | .error e => .error e
    | .ok (canName, w1) =>
      match ext.stoll text with
      | none => .error ("parameter '" ++ name ++ "' is not a valid integer")
      | some v =>
        match onCtx w1 p (fun c => ((), ext.add c SimplifyItemKind.Type name canName false true)) with
        | .error e => .error e
        | .ok (_, w2) => loadDefines ext p rest (mapSet canName (text, v) newDefines) w2

/-- The statement `__name__ = "__main__"` that `apply` prepends. -/
def nameAssign : Stmt :=
  Stmt.assign (Expr.id "__name__") (some (Expr.str MODULE_MAIN)) none

/-- The four loops that fill `suite->stmts`. -/
def buildSuite (pre : Preamble) (stmts : List Stmt) : Stmt :=
  Stmt.suite ((([] ++ pre.types) ++ pre.globals) ++ pre.functions ++ stmts)

/-- The part of `apply` after the standard library has been dealt with, started
with the `stmts` and the preamble built so far. -/
def applyRest {σ : Type} (ext : Externals σ) (stmts : List Stmt) (pre : Preamble)
    (w : World σ) (node : Stmt) (file : String) (defines : Defines) :
    Except String (Stmt × Defines × World σ) :=
  let w1 := { w with cache := { w.cache with age := w.cache.age + 1 } }
  match mapFind STDLIB_IMPORT w1.cache.imports with
  | none => .error "null context"
  | some imp =>
    match imp.ctx with
    | none => .error "null context"
    | some ctx =>
      match onCtx w1 ctx (fun c => ((), { c with filename := file, moduleName := MODULE_MAIN })) with
      | .error e => .error e
      | .ok (_, w2) =>
        match loadDefines ext ctx defines [] w2 with
        | .error e => .error e
        | .ok (newDefines, w3) =>
          let stmts1 := stmts ++ [nameAssign]
          match ext.transform ctx pre w3 node with
          | .error e => .error e
          | .ok (nodeT, pre1, w4) =>
            let stmts2 := stmts1 ++ [nodeT]
            .ok (buildSuite pre1 stmts2, newDefines, w4)

/-- The statement `if (!cache->module) cache->module = new IRModule("")`. -/
def ensureModule {σ : Type} (w : World σ) : World σ :=
  if w.cache.module.isNone then { w with cache := { w.cache with module := some "" } } else w

/-- The function `SimplifyVisitor::apply(cache, node, file, defines, barebones)`. -/
def apply {σ : Type} (ext : Externals σ) (w : World σ) (node : Stmt) (file : String)
    (defines : Defines) (barebones : Bool) : Except String (Stmt × Defines × World σ) :=
  let w1 : World σ := ensureModule w
  if mapHas STDLIB_IMPORT w1.cache.imports = false then
    match bootstrap ext w1 barebones with
    | .error e => .error e
    | .ok (stmts, pre, w2) => applyRest ext stmts pre w2 node file defines
  else applyRest ext [] Preamble.empty w1 node file defines

/-- The function `SimplifyVisitor::apply(ctx, node, file)`. -/
def applyCtx {σ : Type} (ext : Externals σ) (ctx : Nat) (w : World σ) (node : Stmt)
    (_file : String) : Except String (Stmt × World σ) :=
  match ext.transform ctx Preamble.empty w node with
  | .error e => .error e
  | .ok (nodeT, pre, w1) => .ok (buildSuite pre ([] ++ [nodeT]), w1)

/-- The arguments of one call of `apply`. -/
structure ApplyArgs where
  node : Stmt
  file : String
  defines : Defines
  barebones : Bool

/-- A sequence of `apply` calls on one cache; stops at the first call that fails.
Returns, for every call, the world it started from, its arguments and its suite,
and the final world. -/
def applyAll {σ : Type} (ext : Externals σ) :
    World σ → List ApplyArgs → Except String (List (World σ × ApplyArgs × Stmt) × World σ)
  | w, [] => .ok ([], w)
  | w, a :: rest =>
    match apply ext w a.node a.file a.defines a.barebones with
    | .error e => .error e
    | .ok (suite, _, w1) =>
      match applyAll ext w1 rest with
      | .error e => .error e
      | .ok (tr, wN) => .ok ((w, a, suite) :: tr, wN)

/-! ## Predicates used in the proofs -/

/-- The record under `(name, rs)` exists. -/
def Present (st : RState) (name rs : String) : Prop :=
  (findRealization st.classRealizations name rs).isSome = true

/-- Every record of `st` is still there in `st2`. -/
def Pres (st st2 : RState) : Prop := ∀ name rs, Present st name rs → Present st2 name rs

/-- A realizer that never removes a record. -/
def RtPres (rt : RState → ClassType → Except Fault (Handle × RState)) : Prop :=
  ∀ st t h st1, rt st t = .ok (h, st1) → Pres st st1

/-- What a successful call of `realizeType` on `t` leaves behind: no record is
lost and the record of `t` holds the returned handle. -/
def Settled (st st1 : RState) (t : ClassType) (h : Handle) : Prop :=
  Pres st st1 ∧ t.canRealize = true ∧
    ∃ r, findRealization st1.classRealizations t.name t.realizeString = some r ∧
      r.handle = some h

/-! ## Concrete programs -/

/-- The record type `int` (a POD without members). -/
def intT : ClassType := .mk "#int" "int" true true []

/-- The record type `float`. -/
def floatT : ClassType := .mk "#float" "float" true true []

/-- The reference class `Box[T]` instantiated at `a`. -/
def boxT (a : ClassType) (rs : String) : ClassType := .mk "Box" rs false true [.cls a]

/-- The cache after inference of a program using `Box[int]` and `Box[float]`, where
`class Box[T]: x: T`; nothing is bound yet. -/
def boxSt : RState :=
  { classRealizations :=
      [("#int", [("int", ⟨"int", intT, [], none⟩)]),
       ("#float", [("float", ⟨"float", floatT, [], none⟩)]),
       ("Box", [("Box[int]", ⟨"Box[int]", boxT intT "Box[int]", [("x", intT)], none⟩),
                ("Box[float]",
                  ⟨"Box[float]", boxT floatT "Box[float]", [("x", floatT)], none⟩)])],
    heap := [] }

/-- The state of `boxSt` after `realizeType` on `Box[int]`. -/
def boxSt1 : RState :=
  match realizeType 3 boxSt (boxT intT "Box[int]") with
  | .ok (_, s) => s
  | .error _ => boxSt

/-- The sized integer type `Int[w]` or `UInt[w]`. -/
def sizedT (name rs : String) (w : Int) : ClassType := .mk name rs true true [.static w]

/-- A cache with unbound records for `Int[8]` and `UInt[8]`. -/
def sizedSt : RState :=
  { classRealizations :=
      [("Int", [("Int[8]", ⟨"Int[8]", sizedT "Int" "Int[8]" 8, [], none⟩)]),
       ("UInt", [("UInt[8]", ⟨"UInt[8]", sizedT "UInt" "UInt[8]" 8, [], none⟩)])],
    heap := [] }

/-- The reference class `class Node: next: W[Node]`. -/
def nodeT : ClassType := .mk "Node" "Node" false true []

/-- The type `optional[Node]` (`fam = "optional"`) or `ptr[Node]` (`fam = "ptr"`). -/
def wrapT (fam : String) : ClassType := .mk fam (fam ++ "[Node]") true true [.cls nodeT]

/-- The cache after inference of `class Node: next: fam[Node]`; nothing is bound. -/
def nodeSt (fam : String) : RState :=
  { classRealizations :=
      [("Node", [("Node", ⟨"Node", nodeT, [("next", wrapT fam)], none⟩)]),
       (fam, [(fam ++ "[Node]", ⟨fam ++ "[Node]", wrapT fam, [], none⟩)])],
    heap := [] }

/-- The state of `boxSt1` after `realizeType` on `Box[float]`. -/
def boxSt2 : RState :=
  match realizeType 3 boxSt1 (boxT floatT "Box[float]") with
  | .ok (_, s) => s
  | .error _ => boxSt1

/-- The state of `boxSt` after the generic argument of `Box[int]` has been realized. -/
def boxStE : RState :=
  match explicitsLoop (realizeType 2) boxSt [.cls intT] with
  | .ok (_, _, s) => s
  | .error _ => boxSt

/-- The module context of a program that declares, at top level, a variable `x`
and a function `f` (module block 10, module base 1). -/
def moduleCtx : LLVMContext :=
  ((LLVMContext.new "main.seq" (some 10) (some 1)).addVar "x" 3 false).addFunc "f" (some 5) false

/-- The context inside the body of a function (block 11, base 2) of that module. -/
def bodyCtx : LLVMContext := moduleCtx.addBlock (some 11) (some 2)

/-- A standard-library context that binds the name `x` to a function. -/
def stdlibCtx : LLVMContext :=
  (LLVMContext.new "stdlib.seq" (some 10) (some 1)).addFunc "x" (some 7) false

/-- The import table with the standard library under the key `""`. -/
def stdImports : ImportContext := [("", ⟨"stdlib.seq", stdlibCtx⟩)]

/-- The invariant of the block stack: the bottom entries are non-null and the two
top indices point at the last non-null entries. -/
def BlockInv (c : LLVMContext) : Prop :=
  (c.bases.getD 0 none).isSome = true ∧ (c.blocks.getD 0 none).isSome = true ∧
  0 < c.bases.length ∧ 0 < c.blocks.length ∧
  IsTopNonNull c.bases c.topBaseIndex ∧ IsTopNonNull c.blocks c.topBlockIndex

/-- The assumption on the visitor that is not part of `apply`: a successful
`transform` leaves the import record under the reserved key as it is. -/
def KeepsStdlib {σ : Type} (ext : Externals σ) : Prop :=
  ∀ p pre w s r pre2 w2, ext.transform p pre w s = .ok (r, pre2, w2) →
    mapFind STDLIB_IMPORT w2.cache.imports = mapFind STDLIB_IMPORT w.cache.imports

/-- A small instance of the collaborators: the standard library is found at
`/lib/stdlib/internal/__init__.seq`, canonical names are the names themselves,
the parser returns numbered trees and `transform` returns its input after
hoisting one generated function into the preamble. -/
def demoExt : Externals Unit :=
  { stdlibInternalModule := "internal"
    attrInternal := "internal"
    attrTuple := "tuple"
    attrTrait := "trait"
    newContext := fun name => ⟨name, "", false, ()⟩
    generateCanonicalName := fun c name => (name, c)
    add := fun c _ _ _ _ _ => c
    getImportFile := fun _ _ _ _ => "/lib/stdlib/internal/__init__.seq"
    parseCode := fun _ _ => .ok (Stmt.node 0)
    parseFile := fun _ => .ok (Stmt.node 1)
    stoll := fun s => s.toInt?
    transform := fun _ pre w s =>
      .ok (s, { pre with functions := pre.functions ++ [Stmt.node 99] }, w) }

/-- A fresh cache: no module, no import, no class. -/
def demoWorld : World Unit :=
  { cache := { module := none, argv0 := "seqc", imports := [], classes := [], age := 0 },
    ctxs := [] }

/-- The world after the first `apply` on `demoWorld`. -/
def demoWorld1 : World Unit :=
  match apply demoExt demoWorld (Stmt.node 7) "main.seq" [] false with
  | .ok (_, _, w) => w
  | .error _ => demoWorld

/-- The suite of the first `apply` on `demoWorld`. -/
def demoSuite1 : Stmt :=
  match apply demoExt demoWorld (Stmt.node 7) "main.seq" [] false with
  | .ok (s, _, _) => s
  | .error _ => Stmt.node 0

/-- The world after a second `apply`, on `demoWorld1`. -/
def demoWorld2 : World Unit :=
  match apply demoExt demoWorld1 (Stmt.node 8) "other.seq" [] false with
  | .ok (_, _, w) => w
  | .error _ => demoWorld1

/-- The suite of the second `apply`. -/
def demoSuite2 : Stmt :=
  match apply demoExt demoWorld1 (Stmt.node 8) "other.seq" [] false with
  | .ok (s, _, _) => s
  | .error _ => Stmt.node 0

/-- What is true of a call of `apply` that found the standard library loaded: the
reserved key holds the record `imp` when the call starts, the call is the second
half of `apply` started with no statement and an empty preamble, and its suite
is the preamble `transform` built from the empty one, then `__name__`, then the
transformed node. -/
def LoadedCall {σ : Type} (ext : Externals σ) (imp : ImportRec)
    (e : World σ × ApplyArgs × Stmt) : Prop :=
  mapFind STDLIB_IMPORT e.1.cache.imports = some imp ∧
  apply ext e.1 e.2.1.node e.2.1.file e.2.1.defines e.2.1.barebones
    = applyRest ext [] Preamble.empty (ensureModule e.1) e.2.1.node e.2.1.file e.2.1.defines ∧
  ∃ ctx w3 nodeT pre w4,
    ext.transform ctx Preamble.empty w3 e.2.1.node = .ok (nodeT, pre, w4) ∧
    e.2.2 = Stmt.suite (pre.types ++ pre.globals ++ pre.functions ++ [nameAssign, nodeT])

/-- What the loop over the defines does to the context it works on: for every
define, in order, a canonical name is generated and a type symbol is added. -/
def definesCtx {σ : Type} (ext : Externals σ) : Defines → SimplifyContext σ → SimplifyContext σ
  | [], c => c
  | (name, _, _) :: rest, c =>
    definesCtx ext rest
      (ext.add (ext.generateCanonicalName c name).2 SimplifyItemKind.Type name
        (ext.generateCanonicalName c name).1 false true)

/-- Every handle that a record of `st` holds is still held by that record in `st2`. -/
def Mono (st st2 : RState) : Prop :=
  ∀ name rs r h, findRealization st.classRealizations name rs = some r → r.handle = some h →
    ∃ r2, findRealization st2.classRealizations name rs = some r2 ∧ r2.handle = some h

/-- In the state `st` the type `c` is realizable and its record holds the handle `h`. -/
def RealizedAs (st : RState) (c : ClassType) (h : Handle) : Prop :=
  c.canRealize = true ∧
    ∃ r, findRealization st.classRealizations c.name c.realizeString = some r ∧
      r.handle = some h

/-- A cache with an unbound record for `Int[0]`. -/
def zeroSt : RState :=
  { classRealizations :=
      [("Int", [("Int[0]", ⟨"Int[0]", sizedT "Int" "Int[0]" 0, [], none⟩)])],
    heap := [] }

/-- The record type `class Wrap: w: Int[0]`. -/
def wrapZeroT : ClassType := .mk "Wrap" "Wrap" true true []

/-- A cache with unbound records for `Wrap` and for its member type `Int[0]`. -/
def wrapZeroSt : RState :=
  { classRealizations :=
      [("Wrap", [("Wrap", ⟨"Wrap", wrapZeroT, [("w", sizedT "Int" "Int[0]" 0)], none⟩)]),
       ("Int", [("Int[0]", ⟨"Int[0]", sizedT "Int" "Int[0]" 0, [], none⟩)])],
    heap := [] }

/-- The record type `#pair` with members `a: int`, `b: float`. -/
def pairT : ClassType := .mk "#pair" "pair" true true []

/-- The anonymous tuple type `#__tuple_2` of an `int` and a `float`. -/
def tupleT : ClassType := .mk "#__tuple_2" "tuple[int,float]" true true [.cls intT, .cls floatT]

/-- A cache with unbound records for `int`, `float`, `#pair` and `#__tuple_2`. -/
def hashSt : RState :=
  { classRealizations :=
      [("#int", [("int", ⟨"int", intT, [], none⟩)]),
       ("#float", [("float", ⟨"float", floatT, [], none⟩)]),
       ("#pair", [("pair", ⟨"pair", pairT, [("a", intT), ("b", floatT)], none⟩)]),
       ("#__tuple_2", [("tuple[int,float]",
          ⟨"tuple[int,float]", tupleT, [("1", intT), ("2", floatT)], none⟩)])],
    heap := [] }

/-- The state of `hashSt` after `realizeType` on `#pair`. -/
def hashSt1 : RState :=
  match realizeType 3 hashSt pairT with
  | .ok (_, s) => s
  | .error _ => hashSt

/-- The state of `hashSt1` after `realizeType` on `#__tuple_2`. -/
def hashSt2 : RState :=
  match realizeType 3 hashSt1 tupleT with
  | .ok (_, s) => s
  | .error _ => hashSt1

/-! ## Pattern compiler (src/patterns.cpp) -/

/-- A `seq::types::Type` as the pattern compiler sees it: the global scalar types
`types::Int`, `types::Float`, `types::Bool`, the placeholder `types::Any`, a
`RecordType` with its member types (`getTypes()`), or any other type. -/
inductive PatType where
  | int
  | float
  | bool
  | any
  | record (types : List PatType)
  | other (name : String)

namespace PatType

/-- Modelled from the spec: `Type::is` (not among the sources), as far as
`Pattern::validate` uses it: the concrete type matches the expected scalar type. -/
def is : PatType → PatType → Bool
  | int, int => true
  | float, float => true
  | bool, bool => true
  | any, any => true
  | _, _ => false

/-- Modelled from the spec: `Type::getName`, the type name of an error message. -/
def getName : PatType → String
  | int => "Int"
  | float => "Float"
  | bool => "Bool"
  | any => "Any"
  | record _ => "Record"
  | other n => n

/-- Modelled from the spec: `Type::membType(m)` for the member named by the decimal
string of `m`: the `m`-th member type of a record (counted from 1), no member
for any other type. -/
def membType : PatType → Nat → Option PatType
  | record ts, m + 1 => ts.get? m
  | _, _ => none

end PatType

/-- A `double`: not-a-number, or a number; equal numbers have equal `id`. -/
inductive Dbl where
  | nan
  | num (id : Int)
deriving DecidableEq, Repr

/-- An LLVM type: `i1`, or the LLVM type of a seq type (`getLLVMType`). -/
inductive LType where
  | i1
  | of (t : PatType)

/-- An `llvm::Value *`, identified by how it was built: the matched value handed
in by the caller, a constant, or the result of an emitted instruction. -/
inductive Val where
  | matched
  | constInt (ty : LType) (v : Int)
  | constFP (v : Dbl)
  | memb (v : Val) (m : Nat)
  | icmpEq (a b : Val)
  | fcmpOEq (a b : Val)
  | and (a b : Val)

/-- An instruction appended to the basic block. -/
inductive Instr where
  | storeInAlloca (t : PatType) (v : Val)
  | memb (v : Val) (m : Nat)
  | icmpEq (a b : Val)
  | fcmpOEq (a b : Val)
  | and (a b : Val)

/-- What `Wildcard::codegen` assigns to `*var`: the base, the type and the stored
value of the variable. -/
structure VarBinding where
  var : Nat
  base : Ptr
  type : PatType
  value : Val

/-- The basic block being filled and the wildcard variables assigned so far. -/
structure CgState where
  block : List Instr
  vars : List VarBinding

/-- A pattern: `Wildcard` (with its `Var`), `IntPattern`, `FloatPattern`,
`BoolPattern`, `RecordPattern`. -/
inductive Pattern where
  | wildcard (var : Nat)
  | int (val : Int)
  | float (val : Dbl)
  | bool (val : Bool)
  | record (patterns : List Pattern)

/-- The method `Pattern::validate` of the scalar patterns, `expected` being the
type given to the `Pattern` constructor. -/
def validateScalar (expected t : PatType) : Except String Unit :=
  if t.is expected = false then
    .error ("pattern type mismatch: expected " ++ expected.getName ++ " but got " ++ t.getName)
  else .ok ()

mutual
/-- The virtual method `validate`: `Wildcard::validate`, `Pattern::validate`,
`RecordPattern::validate`. -/
def validate : Pattern → PatType → Except String Unit
  | Pattern.wildcard _, _ => .ok ()
  | Pattern.int _, t => validateScalar PatType.int t
  | Pattern.float _, t => validateScalar PatType.float t
  | Pattern.bool _, t => validateScalar PatType.bool t
  | Pattern.record ps, PatType.record ts =>
    if ts.length ≠ ps.length then .error "record element count mismatch in pattern"
    else validateMembers ps ts
  | Pattern.record _, _ => .error "cannot match record pattern with non-record value"
/-- The loop `for (i...) patterns[i]->validate(types[i])`. -/
def validateMembers : List Pattern → List PatType → Except String Unit
  | p :: ps, t :: ts =>
    match validate p t with
    | .error e => .error e
    | .ok _ => validateMembers ps ts
  | _, _ => .ok ()
end

/-- Appends an instruction to the block. -/
def emit (s : CgState) (i : Instr) : CgState :=
  { s with block := s.block ++ [i] }

mutual
/-- The virtual method `codegen`: returns the test value or the exception thrown,
and the block and variables as the call left them. -/
def codegen (base : Ptr) : Pattern → PatType → Val → CgState → Except String Val × CgState
  | Pattern.wildcard x, t, val, s =>
    let s1 := emit s (Instr.storeInAlloca t val)
    (.ok (Val.constInt LType.i1 1), { s1 with vars := s1.vars ++ [⟨x, base, t, val⟩] })
  | Pattern.int n, t, val, s =>
    match validate (Pattern.int n) t with
    | .error e => (.error e, s)
    | .ok _ =>
      let pat := Val.constInt (LType.of PatType.int) n
      (.ok (Val.icmpEq val pat), emit s (Instr.icmpEq val pat))
  | Pattern.float d, t, val, s =>
    match validate (Pattern.float d) t with
    | .error e => (.error e, s)
    | .ok _ =>
      let pat := Val.constFP d
      (.ok (Val.fcmpOEq val pat), emit s (Instr.fcmpOEq val pat))
  | Pattern.bool b, t, val, s =>
    match validate (Pattern.bool b) t with
    | .error e => (.error e, s)
    | .ok _ =>
      let pat := Val.constInt (LType.of PatType.bool) (if b then 1 else 0)
      (.ok (Val.fcmpOEq val pat), emit s (Instr.fcmpOEq val pat))
  | Pattern.record ps, t, val, s =>
    match validate (Pattern.record ps) t with
    | .error e => (.error e, s)
    | .ok _ => codegenMembers base ps t val 0 (Val.constInt LType.i1 1) s
/-- The loop of `RecordPattern::codegen` from index `i` on, `result` being the
conjunction built so far. -/
def codegenMembers (base : Ptr) :
    List Pattern → PatType → Val → Nat → Val → CgState → Except String Val × CgState
  | [], _, _, _, result, s => (.ok result, s)
  | p :: ps, t, val, i, result, s =>
    match t.membType (i + 1) with
    | none => (.error "type has no member", s)
    | some mt =>
      let sub := Val.memb val (i + 1)
      let s1 := emit s (Instr.memb val (i + 1))
      match codegen base p mt sub s1 with
      | (.error e, s2) => (.error e, s2)
      | (.ok subRes, s2) =>
        codegenMembers base ps t val (i + 1) (Val.and result subRes)
          (emit s2 (Instr.and result subRes))
end

/-- A value at run time: an `i1`, an integer, a `double`, or a record. -/
inductive RVal where
  | bit (b : Bool)
  | int (v : Int)
  | dbl (d : Dbl)
  | tuple (vs : List RVal)

/-- The value of the constant `ConstantInt::get(ty, v)`. -/
def constValue : LType → Int → RVal
  | LType.i1, v => RVal.bit (decide (v ≠ 0))
  | LType.of _, v => RVal.int v

/-- The value of member `m` (counted from 1) of a record value. -/
def evalMemb : Option RVal → Nat → Option RVal
  | some (RVal.tuple vs), k + 1 => vs.get? k
  | _, _ => none

/-- The instruction `icmp eq` on two integers of the same kind. -/
def evalICmpEq : Option RVal → Option RVal → Option RVal
  | some (RVal.int p), some (RVal.int q) => some (RVal.bit (decide (p = q)))
  | some (RVal.bit p), some (RVal.bit q) => some (RVal.bit (decide (p = q)))
  | _, _ => none

/-- The instruction `fcmp oeq` on two doubles: true when neither is a NaN and
they are equal. -/
def evalFCmpOEq : Option RVal → Option RVal → Option RVal
  | some (RVal.dbl (Dbl.num p)), some (RVal.dbl (Dbl.num q)) => some (RVal.bit (decide (p = q)))
  | some (RVal.dbl _), some (RVal.dbl _) => some (RVal.bit false)
  | _, _ => none

/-- The instruction `and` on two `i1`. -/
def evalAnd : Option RVal → Option RVal → Option RVal
  | some (RVal.bit p), some (RVal.bit q) => some (RVal.bit (p && q))
  | _, _ => none

/-- The value of an `llvm::Value` when the matched value is `x`; `none` for an
instruction applied to operands of the wrong kind. -/
def eval (x : RVal) : Val → Option RVal
  | Val.matched => some x
  | Val.constInt ty v => some (constValue ty v)
  | Val.constFP d => some (RVal.dbl d)
  | Val.memb v m => evalMemb (eval x v) m
  | Val.icmpEq a b => evalICmpEq (eval x a) (eval x b)
  | Val.fcmpOEq a b => evalFCmpOEq (eval x a) (eval x b)
  | Val.and a b => evalAnd (eval x a) (eval x b)

/-- The test `v` holds on the matched value `x`. -/
def holds (x : RVal) (v : Val) : Prop :=
  ∃ b, eval x v = some (RVal.bit b) ∧ b = true

mutual
/-- Follows the claim's words: somewhere in the tree a scalar-literal pattern meets
a type other than its own scalar type, or a record pattern meets a non-record
type or a record type with another member count. -/
def shapeMismatch : Pattern → PatType → Bool
  | Pattern.wildcard _, _ => false
  | Pattern.int _, t => !(t.is PatType.int)
  | Pattern.float _, t => !(t.is PatType.float)
  | Pattern.bool _, t => !(t.is PatType.bool)
  | Pattern.record ps, PatType.record ts =>
    decide (ts.length ≠ ps.length) || shapeMismatchAny ps ts
  | Pattern.record _, _ => true
/-- Some sub-pattern, paired with the member type at its position, mismatches. -/
def shapeMismatchAny : List Pattern → List PatType → Bool
  | p :: ps, t :: ts => shapeMismatch p t || shapeMismatchAny ps ts
  | _, _ => false
end

/-- The pattern `(1, _)`. -/
def pat1Wild : Pattern := Pattern.record [Pattern.int 1, Pattern.wildcard 0]

/-- The type of a 2-tuple of integers. -/
def intPair : PatType := PatType.record [PatType.int, PatType.int]

/-- An empty block with no variable assigned. -/
def emptyCg : CgState := { block := [], vars := [] }

/-- The test value `codegen` returns for `(1, _)` on a pair of integers. -/
def pat1WildTest : Val :=
  match (codegen 1 pat1Wild intPair Val.matched emptyCg).1 with
  | .ok v => v
  | .error _ => Val.matched

/-- The tests `subs` are, in order, what `codegen` returns for the sub-patterns
`ps` on the member types `ts` and the member values `memb v (i + 1)`,
`memb v (i + 2)`, ... -/
def SubTests (base : Ptr) (v : Val) : Nat → List Pattern → List PatType → List Val → Prop
  | i, p :: ps, t :: ts, sub :: subs =>
    (∃ s1 s2, codegen base p t (Val.memb v (i + 1)) s1 = (.ok sub, s2)) ∧
      SubTests base v (i + 1) ps ts subs
  | _, [], [], [] => True
  | _, _, _, _ => False

/-! ## Function realizations and LLVMContext::getContext -/

/-- The `types::FuncType` of a function realization: for every entry of `args`
(entry 0 is the return type) the result of `getClass()`, and the result of
`realizationInfo->baseClass->getClass()` (`none` when either pointer is null). -/
structure FuncType where
  args : List (Option ClassType)
  baseClass : Option ClassType

/-- The `FunctionStmt` a realization points to: its name, its attributes and the
names of its declared parameters. -/
structure FunctionAst where
  name : String
  attributes : List String
  args : List String

/-- One `FuncRealization` record of the cache. -/
structure FuncRealization where
  fullName : String
  type : FuncType
  ast : FunctionAst
  handle : Option Ptr

/-- The map `funcRealizations`. -/
abbrev FuncRealizations := List (String × List (String × FuncRealization))

/-- The state the loops of `getContext` work on: the class realizations with the
backend types, the number of `seq::Func` objects created by `new` so far (the
`k`-th one has address `k`), and the standard-library context `stdlib->lctx`. -/
structure GState where
  r : RState
  funcs : Nat
  lctx : LLVMContext

/-- Ways `getContext` can stop early. -/
inductive CtxFault where
  | realize (f : Fault)
  | nullStdlib
  | assertBaseClass
  | codegen (msg : String)

/-- The collaborators of `getContext` that are not part of it: the backend method
`Type::findMagic` and the body compilation `CodegenVisitor(lctx).transform`. -/
structure CodegenExternals where
  findMagic : Handle → String → List Handle → Ptr
  codegen : FuncRealizations → GState → Except String GState

/-- The loop `for (int i = startI; i < real.type->args.size(); i++)`, over the
entries from `startI` on. -/
def realizeSig (rt : RState → ClassType → Except Fault (Handle × RState)) :
    RState → List (Option ClassType) → Except Fault (List Handle × RState)
  | st, [] => .ok ([], st)
  | _, none :: _ => .error Fault.assertRealizable
  | st, some c :: rest =>
    match rt st c with
    | .error e => .error e
    | .ok (h, st1) =>
      match realizeSig rt st1 rest with
      | .error e => .error e
      | .ok (hs, st2) => .ok (h :: hs, st2)

/-- The index `startI`: 2 when the first declared parameter is named `self`. -/
def startI (ast : FunctionAst) : Nat :=
  if ast.args.length ≠ 0 ∧ ast.args.head? = some "self" then 2 else 1

/-- The body of the loop over the function realizations, for one realization. -/
def bindFunc (fuel : Nat) (ext : CodegenExternals) (real : FuncRealization) (g : GState) :
    Except CtxFault (FuncRealization × GState) :=
  if "internal" ∈ real.ast.attributes then
    match real.type.baseClass with
    | none => .error CtxFault.assertBaseClass
    | some bc =>
      match realizeType fuel g.r bc with
      | .error f => .error (CtxFault.realize f)
      | .ok (typ, r1) =>
        match realizeSig (realizeType fuel) r1 (real.type.args.drop (startI real.ast)) with
        | .error f => .error (CtxFault.realize f)
        | .ok (types, r2) =>
          let h := ext.findMagic typ real.ast.name types
          .ok ({ real with handle := some h },
               { g with r := r2, lctx := g.lctx.addFunc real.fullName (some h) false })
  else
    let h : Ptr := g.funcs
    .ok ({ real with handle := some h },
         { g with funcs := g.funcs + 1, lctx := g.lctx.addFunc real.fullName (some h) false })

/-- The inner loop `for (auto &f : ff.second)`. -/
def bindInner (fuel : Nat) (ext : CodegenExternals) :
    List (String × FuncRealization) → GState →
      Except CtxFault (List (String × FuncRealization) × GState)
  | [], g => .ok ([], g)
  | (k, real) :: rest, g =>
    match bindFunc fuel ext real g with
    | .error e => .error e
    | .ok (real1, g1) =>
      match bindInner fuel ext rest g1 with
      | .error e => .error e
      | .ok (rest1, g2) => .ok ((k, real1) :: rest1, g2)

/-- The outer loop `for (auto &ff : realizations->funcRealizations)`. -/
def bindFuncs (fuel : Nat) (ext : CodegenExternals) :
    FuncRealizations → GState → Except CtxFault (FuncRealizations × GState)
  | [], g => .ok ([], g)
  | (k, inner) :: rest, g =>
    match bindInner fuel ext inner g with
    | .error e => .error e
    | .ok (inner1, g1) =>
      match bindFuncs fuel ext rest g1 with
      | .error e => .error e
      | .ok (rest1, g2) => .ok ((k, inner1) :: rest1, g2)

/-- A method `int.__add__(self, other)` marked internal, and two ordinary functions. -/
def demoFuncs : FuncRealizations :=
  [("int.__add__",
      [("int.__add__[int,int,int]",
        { fullName := "int.__add__[int,int,int]",
          type := { args := [some intT, some intT, some floatT], baseClass := some intT },
          ast := { name := "__add__", attributes := ["internal"], args := ["self", "other"] },
          handle := none })]),
   ("foo",
      [("foo[int]",
        { fullName := "foo[int]",
          type := { args := [some intT, some intT], baseClass := none },
          ast := { name := "foo", attributes := [], args := ["x"] },
          handle := none }),
       ("foo[float]",
        { fullName := "foo[float]",
          type := { args := [some floatT, some floatT], baseClass := none },
          ast := { name := "foo", attributes := ["inline"], args := ["x"] },
          handle := none })])]

/-- A number for a backend type handle. -/
def handleCode : Handle → Nat
  | Handle.str => 0
  | Handle.obj a => a + 1

/-- A backend whose magic methods live at address 1000 and up, at an address that
tells the type, the argument types and the name apart, and a body compilation
that changes nothing. -/
def demoBackend : CodegenExternals :=
  { findMagic := fun typ name types =>
      1000 + 100 * handleCode typ + 10 * (types.map handleCode).sum + name.length
    codegen := fun _ g => .ok g }

/-- The state before the function loop of `getContext` on `boxSt`. -/
def demoG : GState :=
  { r := boxSt, funcs := 0, lctx := LLVMContext.new "stdlib.seq" (some 10) (some 1) }

/-- The realizations after the function loop on `demoFuncs`. -/
def demoFuncs1 : FuncRealizations :=
  match bindFuncs 3 demoBackend demoFuncs demoG with
  | .ok (fr, _) => fr
  | .error _ => demoFuncs

/-- The state after the function loop on `demoFuncs`. -/
def demoG1 : GState :=
  match bindFuncs 3 demoBackend demoFuncs demoG with
  | .ok (_, g) => g
  | .error _ => demoG

/-- The function `isspace` of the C library in the "C" locale. -/
def isspace (c : Char) : Bool :=
  decide (c.toNat = 32) || (decide (9 ≤ c.toNat) && decide (c.toNat ≤ 13))

/-- The function `std::stoll(str)` of the C++ standard library (base 10, position
not asked for): leading white space is skipped, an optional sign and the longest
run of decimal digits are read, what follows is ignored. `none` stands for the
exceptions `std::invalid_argument` (no digit to read) and `std::out_of_range`
(the number does not fit a 64-bit `long long`). -/
def stoll (s : String) : Option Int :=
  let cs := s.data.dropWhile isspace
  let neg : Bool := decide (cs.head? = some '-')
  let ds := if cs.head? = some '-' ∨ cs.head? = some '+' then cs.drop 1 else cs
  let digits := ds.takeWhile Char.isDigit
  if digits.length = 0 then none
  else
    let mag : Int := digits.foldl (fun a c => 10 * a + ((c.toNat - 48 : Nat) : Int)) 0
    let v : Int := if neg then -mag else mag
    if v < -(2 ^ 63) ∨ 2 ^ 63 - 1 < v then none else some v

/-- The collaborators of `demoExt` with the library's `std::stoll`. -/
def stollExt : Externals Unit := { demoExt with stoll := stoll }

/-- The collaborators of `demoExt` with a standard-library path of seven characters. -/
def shortPathExt : Externals Unit :=
  { demoExt with getImportFile := fun _ _ _ _ => "lib.seq" }

/-- The collaborators of `demoExt` when the standard library is not found. -/
def noPathExt : Externals Unit :=
  { demoExt with getImportFile := fun _ _ _ _ => "" }

/-- The collaborators of `demoExt` when the module resolves to a plain file. -/
def plainPathExt : Externals Unit :=
  { demoExt with getImportFile := fun _ _ _ _ => "/lib/stdlib/internal.seq" }

/-- The world after a first `apply` with the barebones flag set. -/
def demoWorldBare : World Unit :=
  match apply demoExt demoWorld (Stmt.node 7) "main.seq" [] true with
  | .ok (_, _, w) => w
  | .error _ => demoWorld

/-! ## Theorems -/


theorem mapFind_mapModify_same {β : Type} (k : String) (f : β → β) (l : List (String × β)) :
    mapFind k (mapModify k f l) = (mapFind k l).map f := by
  induction l with
  | nil => rfl
  | cons p rest ih =>
    obtain ⟨k', v⟩ := p
    by_cases hk : k' = k
    · simp [mapFind, mapModify, hk]
    · simp [mapFind, mapModify, hk, ih]

theorem mapFind_mapModify_ne {β : Type} (k k2 : String) (f : β → β) (l : List (String × β))
    (hne : k2 ≠ k) : mapFind k2 (mapModify k f l) = mapFind k2 l := by
  induction l with
  | nil => rfl
  | cons p rest ih =>
    obtain ⟨k', v⟩ := p
    by_cases hk : k' = k
    · have h2 : ¬ k' = k2 := by rw [hk]; exact fun h => hne h.symm
      simp only [mapModify, if_pos hk, mapFind, if_neg h2]
    · by_cases hk2 : k' = k2
      · simp only [mapModify, if_neg hk, mapFind, if_pos hk2]
      · simp only [mapModify, if_neg hk, mapFind, if_neg hk2, ih]


theorem Pres.refl (st : RState) : Pres st st := fun _ _ h => h

theorem Pres.trans {a b c : RState} (h1 : Pres a b) (h2 : Pres b c) : Pres a c :=
  fun n rs h => h2 n rs (h1 n rs h)

theorem findRealization_setHandle_same (st : RState) (name rs : String) (h : Handle) :
    findRealization (setHandle st name rs h).classRealizations name rs
      = (findRealization st.classRealizations name rs).map (fun r => { r with handle := some h }) := by
  simp only [findRealization, setHandle, mapFind_mapModify_same]
  cases hm : mapFind name st.classRealizations with
  | none => rfl
  | some inner => simp [mapFind_mapModify_same]

theorem Pres_setHandle (st : RState) (name rs : String) (h : Handle) :
    Pres st (setHandle st name rs h) := by
  intro n2 rs2 hp
  unfold Present at *
  by_cases hn : n2 = name
  · subst hn
    simp only [findRealization, setHandle, mapFind_mapModify_same] at *
    cases hm : mapFind n2 st.classRealizations with
    | none => simp [hm] at hp
    | some inner =>
      simp only [hm, Option.map] at *
      by_cases hr : rs2 = rs
      · subst hr; rw [mapFind_mapModify_same]; simpa using hp
      · rw [mapFind_mapModify_ne _ _ _ _ hr]; exact hp
  · simp only [findRealization, setHandle] at *
    rw [mapFind_mapModify_ne _ _ _ _ hn]; exact hp


theorem Pres_of_eq {st st2 : RState} (h : st2.classRealizations = st.classRealizations) :
    Pres st st2 := by
  intro n rs hp; unfold Present at *; rw [h]; exact hp

theorem setContents_cr (st : RState) (c b : Handle) :
    (setContents st c b).classRealizations = st.classRealizations := by
  unfold setContents; split
  · split <;> rfl
  · rfl

theorem setDone_cr (st : RState) (c : Handle) :
    (setDone st c).classRealizations = st.classRealizations := by
  unfold setDone; split
  · split <;> rfl
  · rfl

theorem explicitsLoop_pres {rt} (hrt : RtPres rt) :
    ∀ (gs : List Generic) (st : RState) ts ss st1,
      explicitsLoop rt st gs = .ok (ts, ss, st1) → Pres st st1 := by
  intro gs
  induction gs with
  | nil =>
    intro st ts ss st1 h
    simp only [explicitsLoop, Except.ok.injEq, Prod.mk.injEq] at h
    rw [← h.2.2]; exact Pres.refl st
  | cons g gs ih =>
    intro st ts ss st1 h
    cases g with
    | static v =>
      simp only [explicitsLoop] at h
      split at h
      · cases h
      · rename_i ts2 ss2 st2 heq
        simp only [Except.ok.injEq, Prod.mk.injEq] at h
        rw [← h.2.2]; exact ih _ _ _ _ heq
    | cls c =>
      simp only [explicitsLoop] at h
      split at h
      · cases h
      · rename_i h0 st0 heq0
        split at h
        · cases h
        · rename_i ts2 ss2 st2 heq
          simp only [Except.ok.injEq, Prod.mk.injEq] at h
          rw [← h.2.2]; exact Pres.trans (hrt _ _ _ _ heq0) (ih _ _ _ _ heq)
    | other => simp [explicitsLoop] at h

theorem argsLoop_pres {rt} (hrt : RtPres rt) :
    ∀ (ms : List (String × ClassType)) (st : RState) ns ts st1,
      argsLoop rt st ms = .ok (ns, ts, st1) → Pres st st1 := by
  intro ms
  induction ms with
  | nil =>
    intro st ns ts st1 h
    simp only [argsLoop, Except.ok.injEq, Prod.mk.injEq] at h
    rw [← h.2.2]; exact Pres.refl st
  | cons m ms ih =>
    intro st ns ts st1 h
    obtain ⟨nm, c⟩ := m
    simp only [argsLoop] at h
    split at h
    · cases h
    · rename_i h0 st0 heq0
      split at h
      · cases h
      · rename_i ns2 ts2 st2 heq
        simp only [Except.ok.injEq, Prod.mk.injEq] at h
        rw [← h.2.2]; exact Pres.trans (hrt _ _ _ _ heq0) (ih _ _ _ _ heq)

theorem settled_setHandle {st stX : RState} {t : ClassType} (h : Handle)
    (hc : t.canRealize = true) (hp : Present st t.name t.realizeString) (hx : Pres st stX) :
    Settled st (setHandle stX t.name t.realizeString h) t h := by
  refine ⟨Pres.trans hx (Pres_setHandle _ _ _ _), hc, ?_⟩
  have hpx := hx _ _ hp
  unfold Present at hpx
  rw [findRealization_setHandle_same]
  cases hf : findRealization stX.classRealizations t.name t.realizeString with
  | none => rw [hf] at hpx; cases hpx
  | some r => exact ⟨_, rfl, rfl⟩

theorem unaryFamily_settled {st stX : RState} {t : ClassType} {types statics mk h st1}
    (hc : t.canRealize = true) (hp : Present st t.name t.realizeString) (hx : Pres st stX)
    (hu : unaryFamily stX t.name t.realizeString types statics mk = .ok (h, st1)) :
    Settled st st1 t h := by
  unfold unaryFamily at hu
  split at hu
  · simp only [alloc, Except.ok.injEq, Prod.mk.injEq] at hu
    rw [← hu.1, ← hu.2]
    exact settled_setHandle _ hc hp (Pres.trans hx (Pres_of_eq rfl))
  · cases hu

theorem realizeType_settled : ∀ (n : Nat) (st : RState) (t : ClassType) (h : Handle) (st1 : RState),
    realizeType n st t = .ok (h, st1) → Settled st st1 t h := by
  intro n
  induction n with
  | zero => intro st t h st1 h1; simp [realizeType] at h1
  | succ n ih =>
    intro st t h st1 h1
    have hrt : RtPres (realizeType n) := fun a b c d e => (ih a b c d e).1
    unfold realizeType at h1
    split at h1
    · cases h1
    rename_i hc
    have hc : t.canRealize = true := by simpa using hc
    split at h1
    · cases h1
    rename_i inner hin
    split at h1
    · cases h1
    rename_i real hreal
    have hfind : findRealization st.classRealizations t.name t.realizeString = some real := by
      simp [findRealization, hin, hreal]
    have hp : Present st t.name t.realizeString := by simp [Present, hfind]
    split at h1
    · rename_i h0 hh
      simp only [Except.ok.injEq, Prod.mk.injEq] at h1
      rw [← h1.1, ← h1.2]
      exact ⟨Pres.refl st, hc, real, hfind, hh⟩
    split at h1
    · cases h1
    rename_i types statics stE hE
    have hpE : Pres st stE := explicitsLoop_pres hrt _ _ _ _ _ hE
    split at h1
    · simp only [Except.ok.injEq, Prod.mk.injEq] at h1
      rw [← h1.1, ← h1.2]
      exact settled_setHandle _ hc hp hpE
    split at h1
    · split at h1
      · split at h1
        · simp only [alloc, Except.ok.injEq, Prod.mk.injEq] at h1
          rw [← h1.1, ← h1.2]
          exact settled_setHandle _ hc hp (Pres.trans hpE (Pres_of_eq rfl))
        · cases h1
      · cases h1
    split at h1
    · exact unaryFamily_settled hc hp hpE h1
    split at h1
    · exact unaryFamily_settled hc hp hpE h1
    split at h1
    · exact unaryFamily_settled hc hp hpE h1
    split at h1
    · exact unaryFamily_settled hc hp hpE h1
    split at h1
    · cases h1
    rename_i names mtypes stA hA
    have hpA : Pres st stA := Pres.trans hpE (argsLoop_pres hrt _ _ _ _ _ hA)
    split at h1
    · simp only [alloc, Except.ok.injEq, Prod.mk.injEq] at h1
      rw [← h1.1, ← h1.2]
      exact settled_setHandle _ hc hp (Pres.trans hpA (Pres_of_eq rfl))
    · simp only [alloc, Except.ok.injEq, Prod.mk.injEq] at h1
      rw [← h1.1, ← h1.2]
      refine settled_setHandle _ hc hp (Pres.trans hpA (Pres_of_eq ?_))
      rw [setDone_cr, setContents_cr]

theorem realizeType_memo (m : Nat) (st : RState) (t : ClassType) (h : Handle)
    (r : ClassRealization) (hc : t.canRealize = true)
    (hf : findRealization st.classRealizations t.name t.realizeString = some r)
    (hh : r.handle = some h) : realizeType (m + 1) st t = .ok (h, st) := by
  unfold findRealization at hf
  unfold realizeType
  rw [if_neg (by simp [hc])]
  cases hm : mapFind t.name st.classRealizations with
  | none => rw [hm] at hf; cases hf
  | some inner =>
    rw [hm] at hf
    simp only at hf
    simp only [hf, hh]


theorem findRealization_some {cr : ClassRealizations} {name rs : String} {r : ClassRealization}
    (h : findRealization cr name rs = some r) :
    ∃ inner, mapFind name cr = some inner ∧ mapFind rs inner = some r := by
  unfold findRealization at h
  cases hm : mapFind name cr with
  | none => rw [hm] at h; cases h
  | some inner => rw [hm] at h; exact ⟨inner, rfl, h⟩

theorem findRealization_setHandle_other (st : RState) (name rs name2 rs2 : String) (h : Handle)
    (hne : name2 ≠ name) :
    findRealization (setHandle st name rs h).classRealizations name2 rs2
      = findRealization st.classRealizations name2 rs2 := by
  simp only [findRealization, setHandle]
  rw [mapFind_mapModify_ne _ _ _ _ hne]

theorem explicitsLoop_static (rt : RState → ClassType → Except Fault (Handle × RState))
    (st : RState) (w : Int) :
    explicitsLoop rt st [Generic.static w] = .ok ([], [w], st) := by
  simp [explicitsLoop]

theorem get?_append_at {α : Type} (l : List α) (a : α) (r : List α) :
    (l ++ a :: r).get? l.length = some a := by
  induction l with
  | nil => rfl
  | cons x l ih => simpa using ih

theorem get?_append_at_succ {α : Type} (l : List α) (a b : α) (r : List α) :
    (l ++ a :: b :: r).get? (l.length + 1) = some b := by
  induction l with
  | nil => rfl
  | cons x l ih => simpa using ih

/-- The sized-integer branch on a record that has no handle yet, width in range. -/
theorem realizeType_sized_ok (n : Nat) (st : RState) (w : Int) (name rs : String) (isRec : Bool)
    (r : ClassRealization) (hname : name = "Int" ∨ name = "UInt")
    (hf : findRealization st.classRealizations name rs = some r) (hn : r.handle = none)
    (hw : 1 ≤ w ∧ w ≤ 2048) :
    realizeType (n + 1) st (.mk name rs isRec true [.static w])
      = .ok (Handle.obj st.heap.length,
          setHandle { st with heap := st.heap ++ [BType.intN w (decide (name = "Int"))] }
            name rs (Handle.obj st.heap.length)) := by
  obtain ⟨inner, h1, h2⟩ := findRealization_some hf
  have hstr : ¬ name = "#str" := by
    rcases hname with h | h <;> (rw [h]; decide)
  unfold realizeType
  simp only [ClassType.canRealize, ClassType.name, ClassType.realizeString, ClassType.explicits,
    h1, h2, hn, explicitsLoop_static, if_neg hstr, if_pos hname, if_pos hw, alloc]
  simp

/-- The sized-integer branch on a record that has no handle yet, width out of range. -/
theorem realizeType_sized_fail (n : Nat) (st : RState) (w : Int) (name rs : String) (isRec : Bool)
    (r : ClassRealization) (hname : name = "Int" ∨ name = "UInt")
    (hf : findRealization st.classRealizations name rs = some r) (hn : r.handle = none)
    (hw : ¬ (1 ≤ w ∧ w ≤ 2048)) :
    realizeType (n + 1) st (.mk name rs isRec true [.static w]) = .error Fault.assertRange := by
  obtain ⟨inner, h1, h2⟩ := findRealization_some hf
  have hstr : ¬ name = "#str" := by
    rcases hname with h | h <;> (rw [h]; decide)
  unfold realizeType
  simp only [ClassType.canRealize, ClassType.name, ClassType.realizeString, ClassType.explicits,
    h1, h2, hn, explicitsLoop_static, if_neg hstr, if_pos hname, if_neg hw]
  simp

/-- C1, as stated, fails: `Int[0]` is realizable and its record is in the cache, yet
no call `realizeType(Int[0])` returns a handle: every call stops on the range
assertion (the model's call without any budget on the budget), so there are no
two equal handles. -/
theorem realizeType_zero_width_no_handle :
    (sizedT "Int" "Int[0]" 0).canRealize = true ∧
    (findRealization zeroSt.classRealizations "Int" "Int[0]").isSome = true ∧
    realizeType 0 zeroSt (sizedT "Int" "Int[0]" 0) = .error Fault.fuel ∧
    (∀ n, realizeType (n + 1) zeroSt (sizedT "Int" "Int[0]" 0) = .error Fault.assertRange) ∧
    (∀ n, ¬ ∃ h st1, realizeType n zeroSt (sizedT "Int" "Int[0]" 0) = .ok (h, st1)) := by
  have key : ∀ n, realizeType (n + 1) zeroSt (sizedT "Int" "Int[0]" 0)
      = .error Fault.assertRange := fun n =>
    realizeType_sized_fail n zeroSt 0 "Int" "Int[0]" true
      ⟨"Int[0]", sizedT "Int" "Int[0]" 0, [], none⟩ (Or.inl rfl) rfl rfl (by decide)
  refine ⟨rfl, rfl, rfl, key, ?_⟩
  intro n
  rintro ⟨h, st1, hr⟩
  cases n with
  | zero => cases hr
  | succ n => rw [key n] at hr; cases hr

/-- C1, amended: whenever a call `realizeType(t)` returns a handle `h`, an
immediately following call `realizeType(t)` returns the same `h` and leaves the
whole state as it was: the store of backend types is not extended and no
realization record changes. -/
theorem realizeType_twice_same_handle (n m : Nat) (st st1 : RState) (t : ClassType) (h : Handle)
    (h1 : realizeType n st t = .ok (h, st1)) :
    realizeType (m + 1) st1 t = .ok (h, st1) := by
  obtain ⟨_, hc, r, hf, hh⟩ := realizeType_settled n st t h st1 h1
  exact realizeType_memo m st1 t h r hc hf hh

theorem realizeType_twice_same_handle_witness :
    realizeType 3 boxSt (boxT intT "Box[int]") = .ok (Handle.obj 1, boxSt1) ∧
    realizeType 1 boxSt1 (boxT intT "Box[int]") = .ok (Handle.obj 1, boxSt1) :=
  ⟨rfl, realizeType_twice_same_handle 3 0 boxSt boxSt1 (boxT intT "Box[int]") (Handle.obj 1) rfl⟩

/-- C2: on records for `Int[w]` and `UInt[w]` that are not bound yet: when
`1 ≤ w ≤ 2048` both realizations succeed, one after the other, with different
handles, pointing to an integer type of width `w` that is signed for `Int` and
unsigned for `UInt`; when `w` is outside `[1, 2048]` each fails on the range
assertion. -/
theorem realizeType_sized_int (n m : Nat) (st : RState) (w : Int) (rsI rsU : String)
    (recI recU : Bool) (rI rU : ClassRealization)
    (hI : findRealization st.classRealizations "Int" rsI = some rI) (hIn : rI.handle = none)
    (hU : findRealization st.classRealizations "UInt" rsU = some rU) (hUn : rU.handle = none) :
    (1 ≤ w ∧ w ≤ 2048 →
      ∃ hi hu st1 st2,
        realizeType (n + 1) st (.mk "Int" rsI recI true [.static w]) = .ok (hi, st1) ∧
        realizeType (m + 1) st1 (.mk "UInt" rsU recU true [.static w]) = .ok (hu, st2) ∧
        hi ≠ hu ∧
        deref st2 hi = some (BType.intN w true) ∧
        deref st2 hu = some (BType.intN w false)) ∧
    (¬ (1 ≤ w ∧ w ≤ 2048) →
      realizeType (n + 1) st (.mk "Int" rsI recI true [.static w]) = .error Fault.assertRange ∧
      realizeType (m + 1) st (.mk "UInt" rsU recU true [.static w])
        = .error Fault.assertRange) := by
  constructor
  · intro hw
    have e1 := realizeType_sized_ok n st w "Int" rsI recI rI (Or.inl rfl) hI hIn hw
    have hU1 : findRealization
        (setHandle { st with heap := st.heap ++ [BType.intN w (decide ("Int" = "Int"))] }
          "Int" rsI (Handle.obj st.heap.length)).classRealizations "UInt" rsU = some rU := by
      rw [findRealization_setHandle_other _ _ _ _ _ _ (by decide)]
      exact hU
    have e2 := realizeType_sized_ok m _ w "UInt" rsU recU rU (Or.inr rfl) hU1 hUn hw
    refine ⟨_, _, _, _, e1, e2, ?_, ?_, ?_⟩
    · simp [setHandle]
    · have := get?_append_at st.heap (BType.intN w true) [BType.intN w false]
      simpa [deref, setHandle] using this
    · have := get?_append_at_succ st.heap (BType.intN w true) (BType.intN w false) []
      simpa [deref, setHandle] using this
  · intro hw
    exact ⟨realizeType_sized_fail n st w "Int" rsI recI rI (Or.inl rfl) hI hIn hw,
      realizeType_sized_fail m st w "UInt" rsU recU rU (Or.inr rfl) hU hUn hw⟩

theorem realizeType_sized_int_witness :
    (1 ≤ (8 : Int) ∧ (8 : Int) ≤ 2048 →
      ∃ hi hu st1 st2,
        realizeType 1 sizedSt (.mk "Int" "Int[8]" true true [.static 8]) = .ok (hi, st1) ∧
        realizeType 1 st1 (.mk "UInt" "UInt[8]" true true [.static 8]) = .ok (hu, st2) ∧
        hi ≠ hu ∧
        deref st2 hi = some (BType.intN 8 true) ∧
        deref st2 hu = some (BType.intN 8 false)) ∧
    (¬ (1 ≤ (8 : Int) ∧ (8 : Int) ≤ 2048) →
      realizeType 1 sizedSt (.mk "Int" "Int[8]" true true [.static 8])
        = .error Fault.assertRange ∧
      realizeType 1 sizedSt (.mk "UInt" "UInt[8]" true true [.static 8])
        = .error Fault.assertRange) :=
  realizeType_sized_int 0 0 sizedSt 8 "Int[8]" "UInt[8]" true true
    ⟨"Int[8]", sizedT "Int" "Int[8]" 8, [], none⟩ ⟨"UInt[8]", sizedT "UInt" "UInt[8]" 8, [], none⟩
    rfl rfl rfl rfl


/-! ### Handles, once set, stay -/

theorem findRealization_setHandle_ne (st : RState) (name rs name2 rs2 : String) (h : Handle)
    (hne : ¬ (name2 = name ∧ rs2 = rs)) :
    findRealization (setHandle st name rs h).classRealizations name2 rs2
      = findRealization st.classRealizations name2 rs2 := by
  by_cases hn : name2 = name
  · have hr : rs2 ≠ rs := fun e => hne ⟨hn, e⟩
    subst hn
    simp only [findRealization, setHandle, mapFind_mapModify_same]
    cases mapFind name2 st.classRealizations with
    | none => rfl
    | some inner =>
      simp only [Option.map]
      exact mapFind_mapModify_ne _ _ _ _ hr
  · exact findRealization_setHandle_other st name rs name2 rs2 h hn

theorem Mono_refl (st : RState) : Mono st st := fun _ _ r _ h1 h2 => ⟨r, h1, h2⟩

theorem Mono_trans {a b c : RState} (h1 : Mono a b) (h2 : Mono b c) : Mono a c := by
  intro name rs r h hf hh
  obtain ⟨r2, hf2, hh2⟩ := h1 name rs r h hf hh
  exact h2 name rs r2 h hf2 hh2

theorem Mono_of_eq {st st2 : RState} (h : st2.classRealizations = st.classRealizations) :
    Mono st st2 := by
  intro name rs r hd hf hh
  exact ⟨r, by rw [h]; exact hf, hh⟩

/-- Writing the handle of a record that had none keeps every handle that was set. -/
theorem Mono_setHandle {st stX : RState} {name rs : String} {real : ClassRealization}
    (h : Handle) (hf : findRealization st.classRealizations name rs = some real)
    (hn : real.handle = none) (hx : Mono st stX) : Mono st (setHandle stX name rs h) := by
  intro name2 rs2 r hd hf2 hh2
  by_cases hk : name2 = name ∧ rs2 = rs
  · obtain ⟨e1, e2⟩ := hk
    subst e1; subst e2
    rw [hf] at hf2
    have : real = r := Option.some.inj hf2
    rw [← this, hn] at hh2
    cases hh2
  · rw [findRealization_setHandle_ne _ _ _ _ _ _ hk]
    exact hx name2 rs2 r hd hf2 hh2

theorem explicitsLoop_rel {R : RState → RState → Prop} (hrefl : ∀ s, R s s)
    (htrans : ∀ a b c, R a b → R b c → R a c)
    {rt : RState → ClassType → Except Fault (Handle × RState)}
    (hrt : ∀ st t h st1, rt st t = .ok (h, st1) → R st st1) :
    ∀ (gs : List Generic) (st : RState) ts ss st1,
      explicitsLoop rt st gs = .ok (ts, ss, st1) → R st st1 := by
  intro gs
  induction gs with
  | nil =>
    intro st ts ss st1 h
    simp only [explicitsLoop, Except.ok.injEq, Prod.mk.injEq] at h
    rw [← h.2.2]; exact hrefl st
  | cons g gs ih =>
    intro st ts ss st1 h
    cases g with
    | static v =>
      simp only [explicitsLoop] at h
      split at h
      · cases h
      · rename_i ts2 ss2 st2 heq
        simp only [Except.ok.injEq, Prod.mk.injEq] at h
        rw [← h.2.2]; exact ih _ _ _ _ heq
    | cls c =>
      simp only [explicitsLoop] at h
      split at h
      · cases h
      · rename_i h0 st0 heq0
        split at h
        · cases h
        · rename_i ts2 ss2 st2 heq
          simp only [Except.ok.injEq, Prod.mk.injEq] at h
          rw [← h.2.2]; exact htrans _ _ _ (hrt _ _ _ _ heq0) (ih _ _ _ _ heq)
    | other => simp [explicitsLoop] at h

theorem argsLoop_rel {R : RState → RState → Prop} (hrefl : ∀ s, R s s)
    (htrans : ∀ a b c, R a b → R b c → R a c)
    {rt : RState → ClassType → Except Fault (Handle × RState)}
    (hrt : ∀ st t h st1, rt st t = .ok (h, st1) → R st st1) :
    ∀ (ms : List (String × ClassType)) (st : RState) ns ts st1,
      argsLoop rt st ms = .ok (ns, ts, st1) → R st st1 := by
  intro ms
  induction ms with
  | nil =>
    intro st ns ts st1 h
    simp only [argsLoop, Except.ok.injEq, Prod.mk.injEq] at h
    rw [← h.2.2]; exact hrefl st
  | cons m ms ih =>
    intro st ns ts st1 h
    obtain ⟨nm, c⟩ := m
    simp only [argsLoop] at h
    split at h
    · cases h
    · rename_i h0 st0 heq0
      split at h
      · cases h
      · rename_i ns2 ts2 st2 heq
        simp only [Except.ok.injEq, Prod.mk.injEq] at h
        rw [← h.2.2]; exact htrans _ _ _ (hrt _ _ _ _ heq0) (ih _ _ _ _ heq)

theorem unaryFamily_mono {st stX : RState} {t : ClassType} {real : ClassRealization}
    {types statics mk h st1}
    (hf : findRealization st.classRealizations t.name t.realizeString = some real)
    (hn : real.handle = none) (hx : Mono st stX)
    (hu : unaryFamily stX t.name t.realizeString types statics mk = .ok (h, st1)) :
    Mono st st1 := by
  unfold unaryFamily at hu
  split at hu
  · simp only [alloc, Except.ok.injEq, Prod.mk.injEq] at hu
    rw [← hu.2]
    exact Mono_setHandle _ hf hn (Mono_trans hx (Mono_of_eq rfl))
  · cases hu

/-- A call of `realizeType` never changes a handle that was already set. -/
theorem realizeType_mono : ∀ (n : Nat) (st : RState) (t : ClassType) (h : Handle) (st1 : RState),
    realizeType n st t = .ok (h, st1) → Mono st st1 := by
  intro n
  induction n with
  | zero => intro st t h st1 h1; simp [realizeType] at h1
  | succ n ih =>
    intro st t h st1 h1
    unfold realizeType at h1
    split at h1
    · cases h1
    split at h1
    · cases h1
    rename_i inner hin
    split at h1
    · cases h1
    rename_i real hreal
    have hfind : findRealization st.classRealizations t.name t.realizeString = some real := by
      simp [findRealization, hin, hreal]
    split at h1
    · simp only [Except.ok.injEq, Prod.mk.injEq] at h1
      rw [← h1.2]
      exact Mono_refl st
    rename_i hnone
    split at h1
    · cases h1
    rename_i types statics stE hE
    have hpE : Mono st stE :=
      explicitsLoop_rel Mono_refl (fun _ _ _ => Mono_trans) ih _ _ _ _ _ hE
    split at h1
    · simp only [Except.ok.injEq, Prod.mk.injEq] at h1
      rw [← h1.2]
      exact Mono_setHandle _ hfind hnone hpE
    split at h1
    · split at h1
      · split at h1
        · simp only [alloc, Except.ok.injEq, Prod.mk.injEq] at h1
          rw [← h1.2]
          exact Mono_setHandle _ hfind hnone (Mono_trans hpE (Mono_of_eq rfl))
        · cases h1
      · cases h1
    split at h1
    · exact unaryFamily_mono hfind hnone hpE h1
    split at h1
    · exact unaryFamily_mono hfind hnone hpE h1
    split at h1
    · exact unaryFamily_mono hfind hnone hpE h1
    split at h1
    · exact unaryFamily_mono hfind hnone hpE h1
    split at h1
    · cases h1
    rename_i names mtypes stA hA
    have hpA : Mono st stA :=
      Mono_trans hpE (argsLoop_rel Mono_refl (fun _ _ _ => Mono_trans) ih _ _ _ _ _ hA)
    split at h1
    · simp only [alloc, Except.ok.injEq, Prod.mk.injEq] at h1
      rw [← h1.2]
      exact Mono_setHandle _ hfind hnone (Mono_trans hpA (Mono_of_eq rfl))
    · simp only [alloc, Except.ok.injEq, Prod.mk.injEq] at h1
      rw [← h1.2]
      refine Mono_setHandle _ hfind hnone (Mono_trans hpA (Mono_of_eq ?_))
      rw [setDone_cr, setContents_cr]

theorem RealizedAs_mono {st st2 : RState} {c : ClassType} {h : Handle}
    (hm : Mono st st2) (hr : RealizedAs st c h) : RealizedAs st2 c h := by
  obtain ⟨hc, r, hf, hh⟩ := hr
  obtain ⟨r2, hf2, hh2⟩ := hm _ _ r h hf hh
  exact ⟨hc, r2, hf2, hh2⟩

theorem RealizedAs_of_call {n : Nat} {st st1 : RState} {c : ClassType} {h : Handle}
    (hcall : realizeType n st c = .ok (h, st1)) : RealizedAs st1 c h := by
  obtain ⟨_, hc, r, hf, hh⟩ := realizeType_settled n st c h st1 hcall
  exact ⟨hc, r, hf, hh⟩

/-- A realized type is returned from the cache, with the state unchanged. -/
theorem realizeType_of_RealizedAs {st : RState} {c : ClassType} {h : Handle}
    (hr : RealizedAs st c h) (k : Nat) : realizeType (k + 1) st c = .ok (h, st) := by
  obtain ⟨hc, r, hf, hh⟩ := hr
  exact realizeType_memo k st c h r hc hf hh

/-- After the loop over the members every member type holds the handle the loop
returned for it. -/
theorem argsLoop_realized (n : Nat) :
    ∀ (ms : List (String × ClassType)) (st : RState) ns ts st1,
      argsLoop (realizeType n) st ms = .ok (ns, ts, st1) →
      List.Forall₂ (fun m h => RealizedAs st1 m.2 h) ms ts := by
  intro ms
  induction ms with
  | nil =>
    intro st ns ts st1 h
    simp only [argsLoop, Except.ok.injEq, Prod.mk.injEq] at h
    rw [← h.2.1]; exact List.Forall₂.nil
  | cons m ms ih =>
    intro st ns ts st1 h
    obtain ⟨nm, c⟩ := m
    have hall := h
    simp only [argsLoop] at h
    split at h
    · cases h
    · rename_i h0 st0 heq0
      split at h
      · cases h
      · rename_i ns2 ts2 st2 heq
        simp only [Except.ok.injEq, Prod.mk.injEq] at h
        have hm : Mono st0 st2 :=
          argsLoop_rel Mono_refl (fun _ _ _ => Mono_trans) (realizeType_mono n) _ _ _ _ _ heq
        rw [← h.2.1, ← h.2.2]
        exact List.Forall₂.cons (RealizedAs_mono hm (RealizedAs_of_call heq0)) (ih _ _ _ _ heq)


theorem argsLoop_spec (rt : RState → ClassType → Except Fault (Handle × RState)) :
    ∀ (ms : List (String × ClassType)) (st : RState) ns ts st1,
      argsLoop rt st ms = .ok (ns, ts, st1) →
      ns = ms.map Prod.fst ∧
      List.Forall₂ (fun m h => ∃ sa sb, rt sa m.2 = .ok (h, sb)) ms ts := by
  intro ms
  induction ms with
  | nil =>
    intro st ns ts st1 h
    simp only [argsLoop, Except.ok.injEq, Prod.mk.injEq] at h
    rw [← h.1, ← h.2.1]
    exact ⟨rfl, List.Forall₂.nil⟩
  | cons m ms ih =>
    intro st ns ts st1 h
    obtain ⟨nm, c⟩ := m
    simp only [argsLoop] at h
    split at h
    · cases h
    · rename_i h0 st0 heq0
      split at h
      · cases h
      · rename_i ns2 ts2 st2 heq
        simp only [Except.ok.injEq, Prod.mk.injEq] at h
        obtain ⟨ihn, iht⟩ := ih _ _ _ _ heq
        rw [← h.1, ← h.2.1, ihn]
        exact ⟨rfl, List.Forall₂.cons ⟨_, _, heq0⟩ iht⟩

theorem deref_setHandle (st : RState) (name rs : String) (h x : Handle) :
    deref (setHandle st name rs h) x = deref st x := by
  cases x <;> rfl

theorem set_append_at {α : Type} (l : List α) (a x : α) (r : List α) :
    (l ++ a :: r).set l.length x = l ++ x :: r := by
  induction l with
  | nil => rfl
  | cons y l ih => simp [ih]

/-- Building a reference type: `RefType::get`, `RecordType::get`, `setContents`,
`setDone`. -/
theorem ref_build (st : RState) (nm : String) (body : BType) :
    setDone (setContents (alloc (alloc st (BType.ref nm none false)).2 body).2
        (alloc st (BType.ref nm none false)).1
        (alloc (alloc st (BType.ref nm none false)).2 body).1)
      (alloc st (BType.ref nm none false)).1
    = { st with heap := st.heap ++
          [BType.ref nm (some (Handle.obj (st.heap.length + 1))) true, body] } := by
  have e1 : (st.heap ++ [BType.ref nm none false] ++ [body]).get? st.heap.length
      = some (BType.ref nm none false) := by
    rw [List.append_assoc]; exact get?_append_at _ _ _
  have e2 : (st.heap ++ [BType.ref nm none false] ++ [body]).set st.heap.length
      (BType.ref nm (some (Handle.obj (st.heap.length + 1))) false)
      = st.heap ++ [BType.ref nm (some (Handle.obj (st.heap.length + 1))) false, body] := by
    rw [List.append_assoc]; exact set_append_at _ _ _ _
  have e3 : (st.heap ++ [BType.ref nm (some (Handle.obj (st.heap.length + 1))) false, body]).get?
      st.heap.length = some (BType.ref nm (some (Handle.obj (st.heap.length + 1))) false) :=
    get?_append_at _ _ _
  have e4 : (st.heap ++ [BType.ref nm (some (Handle.obj (st.heap.length + 1))) false, body]).set
      st.heap.length (BType.ref nm (some (Handle.obj (st.heap.length + 1))) true)
      = st.heap ++ [BType.ref nm (some (Handle.obj (st.heap.length + 1))) true, body] :=
    set_append_at _ _ _ _
  simp only [alloc, setContents, List.length_append, List.length_singleton, e1, e2, setDone, e3, e4]

/-- The function `chop` drops a leading `#` and nothing else. -/
theorem chop_eq (s : String) :
    chop s = String.mk (match s.data with
      | '#' :: rest => rest
      | cs => cs) := by
  obtain ⟨data⟩ := s
  cases data with
  | nil => rfl
  | cons c rest =>
    by_cases hc : c = '#'
    · subst hc; rfl
    · have h1 : chop ⟨c :: rest⟩ = ⟨c :: rest⟩ := by
        simp [chop, hc]
      rw [h1]
      congr 1
      split
      · rename_i r heq
        simp only [List.cons.injEq] at heq
        exact absurd heq.1 hc
      · rfl

theorem substr_tuple_iff (s : String) :
    substr s 0 9 = "#__tuple_" ↔ s.data.take 9 = "#__tuple_".data := by
  constructor
  · intro h; exact congrArg String.data h
  · intro h; exact congrArg String.mk h

/-- C3, as stated, fails: `Wrap` is a realizable record type outside the built-in
families with its record in the cache, but its member has the type `Int[0]`, so
every call `realizeType(Wrap)` with budget for the member stops on the range
assertion and none yields a handle. -/
theorem realizeType_member_fails_no_handle :
    wrapZeroT.canRealize = true ∧
    wrapZeroT.name ∉ ["#str", "Int", "UInt", "#array", "ptr", "generator", "optional"] ∧
    (findRealization wrapZeroSt.classRealizations "Wrap" "Wrap").isSome = true ∧
    (∀ n, realizeType (n + 2) wrapZeroSt wrapZeroT = .error Fault.assertRange) ∧
    (∀ n, ¬ ∃ h st1, realizeType n wrapZeroSt wrapZeroT = .ok (h, st1)) := by
  have key : ∀ n, realizeType (n + 2) wrapZeroSt wrapZeroT = .error Fault.assertRange := by
    intro n
    have e0 : realizeType (n + 1) wrapZeroSt (sizedT "Int" "Int[0]" 0)
        = .error Fault.assertRange :=
      realizeType_sized_fail n wrapZeroSt 0 "Int" "Int[0]" true
        ⟨"Int[0]", sizedT "Int" "Int[0]" 0, [], none⟩ (Or.inl rfl) rfl rfl (by decide)
    have e : argsLoop (realizeType (n + 1)) wrapZeroSt [("w", sizedT "Int" "Int[0]" 0)]
        = .error Fault.assertRange := by
      simp only [argsLoop, e0]
    unfold realizeType
    simp [wrapZeroT, wrapZeroSt, ClassType.canRealize, ClassType.name,
      ClassType.realizeString, ClassType.explicits, mapFind, explicitsLoop] at e ⊢
    rw [e]
  refine ⟨rfl, by decide, rfl, key, ?_⟩
  intro n
  rintro ⟨h, st1, hr⟩
  cases n with
  | zero => cases hr
  | succ n =>
    cases n with
    | zero =>
      have e1 : realizeType 1 wrapZeroSt wrapZeroT = .error Fault.fuel := rfl
      rw [e1] at hr; cases hr
    | succ n => rw [key n] at hr; cases hr

/-- C3, amended: for a class type outside the built-in families whose record is not
bound yet, if the realization of its generic arguments and then of its members,
in recorded order, returns, then `realizeType` returns a handle built from the
record's members in that order: the member names are the recorded names, and
the member type at each position is the handle that `realizeType` returns for
that member's type in the resulting state (for a member type that does not have
the key of the type itself). A record type gives a flat record named by the
canonical name with one leading `#` dropped, unnamed when the name starts with
`#__tuple_`; any other type gives a finished reference type of that name whose
contents is an unnamed record. In the program with `class Box[T]: x: T`,
`Box[int]` and `Box[float]` get different handles whose one-element member-type
lists are the handles of `int` and of `float`; the record type `#pair` gets the
name `pair`, `#int` the name `int`, and `#__tuple_2` no name. -/
theorem realizeType_composite (n : Nat) (st : RState) (t : ClassType) (real : ClassRealization)
    (types : List Handle) (statics : List Int) (stE : RState)
    (names : List String) (mtypes : List Handle) (stA : RState)
    (hc : t.canRealize = true)
    (hf : findRealization st.classRealizations t.name t.realizeString = some real)
    (hn : real.handle = none)
    (hname : t.name ∉ ["#str", "Int", "UInt", "#array", "ptr", "generator", "optional"])
    (hE : explicitsLoop (realizeType n) st t.explicits = .ok (types, statics, stE))
    (hA : argsLoop (realizeType n) stE real.args = .ok (names, mtypes, stA)) :
    (∃ h st1, realizeType (n + 1) st t = .ok (h, st1) ∧
      names = real.args.map Prod.fst ∧
      List.Forall₂ (fun m hm =>
        ¬ (m.2.name = t.name ∧ m.2.realizeString = t.realizeString) →
          ∀ k, realizeType (k + 1) st1 m.2 = .ok (hm, st1)) real.args mtypes ∧
      (t.isRecord = true →
        deref st1 h = some (BType.record mtypes names
          (if t.name.data.take 9 = "#__tuple_".data then ""
           else String.mk (match t.name.data with
             | '#' :: rest => rest
             | cs => cs)))) ∧
      (t.isRecord = false →
        ∃ body,
          deref st1 h = some (BType.ref
            (String.mk (match t.name.data with
              | '#' :: rest => rest
              | cs => cs)) (some body) true) ∧
          deref st1 body = some (BType.record mtypes names ""))) ∧
    (∃ hBI hBF bI bF hInt hFloat,
      realizeType 3 boxSt (boxT intT "Box[int]") = .ok (hBI, boxSt1) ∧
      realizeType 3 boxSt1 (boxT floatT "Box[float]") = .ok (hBF, boxSt2) ∧
      hBI ≠ hBF ∧
      deref boxSt2 hBI = some (BType.ref "Box" (some bI) true) ∧
      deref boxSt2 bI = some (BType.record [hInt] ["x"] "") ∧
      realizeType 1 boxSt2 intT = .ok (hInt, boxSt2) ∧
      deref boxSt2 hInt = some (BType.record [] [] "int") ∧
      deref boxSt2 hBF = some (BType.ref "Box" (some bF) true) ∧
      deref boxSt2 bF = some (BType.record [hFloat] ["x"] "") ∧
      realizeType 1 boxSt2 floatT = .ok (hFloat, boxSt2) ∧
      deref boxSt2 hFloat = some (BType.record [] [] "float")) ∧
    (realizeType 3 hashSt pairT = .ok (Handle.obj 2, hashSt1) ∧
      deref hashSt1 (Handle.obj 2)
        = some (BType.record [Handle.obj 0, Handle.obj 1] ["a", "b"] "pair") ∧
      realizeType 3 hashSt1 tupleT = .ok (Handle.obj 3, hashSt2) ∧
      deref hashSt2 (Handle.obj 3)
        = some (BType.record [Handle.obj 0, Handle.obj 1] ["1", "2"] "") ∧
      realizeType 1 hashSt2 intT = .ok (Handle.obj 0, hashSt2) ∧
      realizeType 1 hashSt2 floatT = .ok (Handle.obj 1, hashSt2)) := by
  refine ⟨?_, ⟨Handle.obj 1, Handle.obj 4, Handle.obj 2, Handle.obj 5, Handle.obj 0,
    Handle.obj 3, rfl, rfl, by decide, by decide, by decide, rfl, by decide, by decide,
    by decide, rfl, by decide⟩, rfl, by decide, rfl, by decide, rfl, rfl⟩
  obtain ⟨hnames, _⟩ := argsLoop_spec _ _ _ _ _ _ hA
  have hreal := argsLoop_realized n _ _ _ _ _ hA
  obtain ⟨inner, h1, h2⟩ := findRealization_some hf
  simp only [List.mem_cons, List.mem_singleton, List.not_mem_nil, or_false, not_or] at hname
  obtain ⟨n1, n2, n3, n4, n5, n6, n7⟩ := hname
  have hiu : ¬ (t.name = "Int" ∨ t.name = "UInt") := fun h => h.elim n2 n3
  have final : ∀ (sY : RState) (h : Handle), sY.classRealizations = stA.classRealizations →
      List.Forall₂ (fun m hm =>
        ¬ (m.2.name = t.name ∧ m.2.realizeString = t.realizeString) →
          ∀ k, realizeType (k + 1) (setHandle sY t.name t.realizeString h) m.2
            = .ok (hm, setHandle sY t.name t.realizeString h)) real.args mtypes := by
    intro sY h hcr
    refine hreal.imp ?_
    intro m hm hra hne k
    obtain ⟨hcm, r, hfm, hhm⟩ := hra
    apply realizeType_of_RealizedAs
    refine ⟨hcm, r, ?_, hhm⟩
    rw [findRealization_setHandle_ne _ _ _ _ _ _ hne, hcr]
    exact hfm
  cases hr : t.isRecord with
  | true =>
    refine ⟨Handle.obj stA.heap.length,
      setHandle { stA with heap := stA.heap ++ [BType.record mtypes names
        (chop (if substr t.name 0 9 = "#__tuple_" then "" else t.name))] }
        t.name t.realizeString (Handle.obj stA.heap.length), ?_, hnames, final _ _ rfl, ?_, ?_⟩
    · unfold realizeType
      simp only [hc, h1, h2, hn, hE, hA, if_neg n1, if_neg hiu, if_neg n4, if_neg n5, if_neg n6,
        if_neg n7, hr, alloc]
      simp
    · intro _
      rw [deref_setHandle]
      have := get?_append_at stA.heap (BType.record mtypes names
        (chop (if substr t.name 0 9 = "#__tuple_" then "" else t.name))) []
      simp only [deref]
      rw [this]
      by_cases htup : substr t.name 0 9 = "#__tuple_"
      · rw [if_pos htup, if_pos ((substr_tuple_iff t.name).1 htup)]; rfl
      · rw [if_neg htup, if_neg (fun h => htup ((substr_tuple_iff t.name).2 h)), chop_eq]
    · intro hcontra; cases hcontra
  | false =>
    refine ⟨Handle.obj stA.heap.length,
      setHandle { stA with heap := stA.heap ++
          [BType.ref (chop t.name) (some (Handle.obj (stA.heap.length + 1))) true,
           BType.record mtypes names ""] }
        t.name t.realizeString (Handle.obj stA.heap.length), ?_, hnames, final _ _ rfl, ?_, ?_⟩
    · unfold realizeType
      simp only [hc, h1, h2, hn, hE, hA, if_neg n1, if_neg hiu, if_neg n4, if_neg n5, if_neg n6,
        if_neg n7, hr]
      have hb := ref_build stA (chop t.name) (BType.record mtypes names "")
      simp only [Bool.false_eq_true, if_false]
      rw [hb]
      simp [alloc]
    · intro hcontra; cases hcontra
    · intro _
      refine ⟨Handle.obj (stA.heap.length + 1), ?_, ?_⟩
      · rw [deref_setHandle, ← chop_eq]
        exact get?_append_at stA.heap _ _
      · rw [deref_setHandle]
        exact get?_append_at_succ stA.heap _ _ []

theorem realizeType_composite_witness :
    ∃ h st1, realizeType 3 boxSt (boxT intT "Box[int]") = .ok (h, st1) ∧
      (∀ k, realizeType (k + 1) st1 intT = .ok (Handle.obj 0, st1)) ∧
      ∃ body, deref st1 h = some (BType.ref "Box" (some body) true) ∧
        deref st1 body = some (BType.record [Handle.obj 0] ["x"] "") := by
  have key := (realizeType_composite 2 boxSt (boxT intT "Box[int]")
    ⟨"Box[int]", boxT intT "Box[int]", [("x", intT)], none⟩
    [Handle.obj 0] [] boxStE ["x"] [Handle.obj 0] boxStE
    rfl rfl rfl (by decide) rfl rfl).1
  obtain ⟨h, st1, e, _, hall, _, hb⟩ := key
  refine ⟨h, st1, e, ?_, hb rfl⟩
  cases hall with
  | cons hhead _ => exact hhead (by decide)

/-- The call on `Node` and the call on `fam[Node]` keep calling each other: with
any budget both run out of it (here for `fam = "optional"`). -/
theorem realizeType_node_optional (n : Nat) :
    realizeType n (nodeSt "optional") nodeT = .error Fault.fuel ∧
    realizeType n (nodeSt "optional") (wrapT "optional") = .error Fault.fuel := by
  induction n with
  | zero => exact ⟨rfl, rfl⟩
  | succ n ih =>
    constructor
    · unfold realizeType
      have e : argsLoop (realizeType n) (nodeSt "optional") [("next", wrapT "optional")]
          = .error Fault.fuel := by
        simp only [argsLoop, ih.2]
      simp [nodeT, nodeSt, ClassType.canRealize, ClassType.name, ClassType.realizeString,
        ClassType.explicits, mapFind, explicitsLoop] at e ⊢
      rw [e]
    · unfold realizeType
      have e : explicitsLoop (realizeType n) (nodeSt "optional") [Generic.cls nodeT]
          = .error Fault.fuel := by
        simp only [explicitsLoop, ih.1]
      simp [wrapT, nodeSt, ClassType.canRealize, ClassType.name, ClassType.realizeString,
        ClassType.explicits, mapFind] at e ⊢
      rw [e]


/-- The same for `fam = "ptr"`. -/
theorem realizeType_node_ptr (n : Nat) :
    realizeType n (nodeSt "ptr") nodeT = .error Fault.fuel ∧
    realizeType n (nodeSt "ptr") (wrapT "ptr") = .error Fault.fuel := by
  induction n with
  | zero => exact ⟨rfl, rfl⟩
  | succ n ih =>
    constructor
    · unfold realizeType
      have e : argsLoop (realizeType n) (nodeSt "ptr") [("next", wrapT "ptr")]
          = .error Fault.fuel := by
        simp only [argsLoop, ih.2]
      simp [nodeT, nodeSt, ClassType.canRealize, ClassType.name, ClassType.realizeString,
        ClassType.explicits, mapFind, explicitsLoop] at e ⊢
      rw [e]
    · unfold realizeType
      have e : explicitsLoop (realizeType n) (nodeSt "ptr") [Generic.cls nodeT]
          = .error Fault.fuel := by
        simp only [explicitsLoop, ih.1]
      simp [wrapT, nodeSt, ClassType.canRealize, ClassType.name, ClassType.realizeString,
        ClassType.explicits, mapFind] at e ⊢
      rw [e]

/-- C4 (the code does not do what the claim says): for the reference class
`class Node: next: optional[Node]` (and likewise with `ptr[Node]`), all records
present and no handle filled in, `realizeType(Node)` returns no handle whatever
the recursion budget: the call on `Node` realizes the member `optional[Node]`,
whose generic argument is `Node` again, whose handle is still null. -/
theorem realizeType_self_reference_never_returns (n : Nat) :
    realizeType n (nodeSt "optional") nodeT = .error Fault.fuel ∧
    realizeType n (nodeSt "ptr") nodeT = .error Fault.fuel :=
  ⟨(realizeType_node_optional n).1, (realizeType_node_ptr n).1⟩

/-! ### Lookup -/

open LLVMContext

/-- With `checkStdlib = false` the body never uses the recursive call. -/
theorem findBody_false (imports : ImportContext)
    (s1 s2 : LLVMContext → String → Bool → Bool → Option Item)
    (c : LLVMContext) (name : String) (onlyLocal : Bool) :
    findBody imports s1 c name onlyLocal false = findBody imports s2 c name onlyLocal false := by
  simp only [findBody]
  cases baseFind c.scopes name <;> simp

/-- The body depends on the recursive call only at `checkStdlib = false`. -/
theorem findBody_congr (imports : ImportContext)
    (s1 s2 : LLVMContext → String → Bool → Bool → Option Item)
    (c : LLVMContext) (name : String) (onlyLocal checkStdlib : Bool)
    (h : ∀ c2, s1 c2 name onlyLocal false = s2 c2 name onlyLocal false) :
    findBody imports s1 c name onlyLocal checkStdlib
      = findBody imports s2 c name onlyLocal checkStdlib := by
  unfold findBody
  cases baseFind c.scopes name with
  | some it => rfl
  | none =>
    cases getImport imports "" with
    | none => rfl
    | some stdlib => simp only [h]

/-- The recursive equation of `LLVMContext::find`. -/
theorem find_unfold (imports : ImportContext) (c : LLVMContext) (name : String)
    (onlyLocal checkStdlib : Bool) :
    find imports c name onlyLocal checkStdlib
      = findBody imports (find imports) c name onlyLocal checkStdlib :=
  findBody_congr imports _ _ c name onlyLocal checkStdlib
    (fun c2 => findBody_false imports _ _ c2 name onlyLocal)

/-- Without the fallback, `find` looks at the context's own scopes only. -/
theorem find_no_stdlib (imports : ImportContext) (c : LLVMContext) (name : String)
    (onlyLocal : Bool) :
    find imports c name onlyLocal false =
      match baseFind c.scopes name with
      | some it =>
        if it.isVar = true ∧ onlyLocal = true then
          (if c.getBase = it.getBase then some it else none)
        else some it
      | none => none := by
  rw [find_unfold]
  simp only [findBody]
  cases baseFind c.scopes name with
  | some it => rfl
  | none => cases getImport imports "" <;> simp

/-- The base lookup returns the binding of the innermost scope that binds the name. -/
theorem baseFind_innermost (scopes : List (List (String × Item))) (name : String) (it : Item) :
    baseFind scopes name = some it ↔
      ∃ inner sc outer, scopes = inner ++ sc :: outer ∧
        (∀ s ∈ inner, mapFind name s = none) ∧ mapFind name sc = some it := by
  induction scopes with
  | nil =>
    constructor
    · intro h; cases h
    · rintro ⟨inner, sc, outer, h, _⟩
      cases inner <;> cases h
  | cons s rest ih =>
    cases hs : mapFind name s with
    | some it2 =>
      simp only [baseFind, hs]
      constructor
      · intro h
        exact ⟨[], s, rest, rfl, by simp, by rw [hs, h]⟩
      · rintro ⟨inner, sc, outer, h, hin, hsc⟩
        cases inner with
        | nil =>
          simp only [List.nil_append, List.cons.injEq] at h
          rw [← h.1, hs] at hsc; exact hsc
        | cons a inner =>
          simp only [List.cons_append, List.cons.injEq] at h
          have := hin a (by simp)
          rw [← h.1, hs] at this; cases this
    | none =>
      simp only [baseFind, hs]
      rw [ih]
      constructor
      · rintro ⟨inner, sc, outer, h, hin, hsc⟩
        refine ⟨s :: inner, sc, outer, by rw [h]; rfl, ?_, hsc⟩
        intro s2 hs2
        rcases List.mem_cons.1 hs2 with h2 | h2
        · rw [h2]; exact hs
        · exact hin s2 h2
      · rintro ⟨inner, sc, outer, h, hin, hsc⟩
        cases inner with
        | nil =>
          simp only [List.nil_append, List.cons.injEq] at h
          rw [← h.1, hs] at hsc; cases hsc
        | cons a inner =>
          simp only [List.cons_append, List.cons.injEq] at h
          exact ⟨inner, sc, outer, h.2, fun s2 hs2 => hin s2 (by simp [hs2]), hsc⟩

/-- C5: with `onlyLocal = false`, `find` returns the innermost binding of the name
in the context's own scopes when there is one; otherwise, when a standard
library is registered under the key `""` and `checkStdlib` is set, it returns
what the standard-library context's `find(name, false, false)` returns, and
not-found in every other case. That inner call looks at the standard library's
own scopes only, so the fallback is one level deep. -/
theorem find_nonlocal (imports : ImportContext) (c : LLVMContext) (name : String)
    (checkStdlib : Bool) :
    (find imports c name false checkStdlib =
      match baseFind c.scopes name with
      | some it => some it
      | none =>
        match getImport imports "" with
        | some stdlib =>
          if checkStdlib = true then find imports stdlib.lctx name false false else none
        | none => none) ∧
    (∀ std : LLVMContext, find imports std name false false = baseFind std.scopes name) ∧
    (∀ it, baseFind c.scopes name = some it ↔
      ∃ inner sc outer, c.scopes = inner ++ sc :: outer ∧
        (∀ s ∈ inner, mapFind name s = none) ∧ mapFind name sc = some it) := by
  refine ⟨?_, ?_, fun it => baseFind_innermost c.scopes name it⟩
  · rw [find_unfold]
    simp only [findBody]
    cases baseFind c.scopes name with
    | some it => simp
    | none => rfl
  · intro std
    rw [find_no_stdlib]
    cases baseFind std.scopes name <;> simp

/-- C6, as stated, fails: inside a function body (base 2) the name `x` is bound to a
module-level variable (base 1) and the standard library binds `x` too; `find`
with `onlyLocal` and `checkStdlib` set returns not-found although the
standard-library context's `find(x, true, false)` returns its binding. -/
theorem find_foreign_var_no_fallback :
    baseFind bodyCtx.scopes "x" = some (Item.var 3 (some 1) true) ∧
    bodyCtx.getBase = some 2 ∧
    find stdImports stdlibCtx "x" true false = some (Item.func (some 7) (some 1) true) ∧
    find stdImports bodyCtx "x" true true = none ∧
    find stdImports bodyCtx "x" true true ≠ find stdImports stdlibCtx "x" true false := by
  decide

/-- C6, amended: when `onlyLocal` is set and the binding found in the context's
scopes is a variable whose owning base differs from the current base, `find`
returns not-found at once, whatever `checkStdlib` is and whatever the standard
library binds. -/
theorem find_foreign_var_not_found (imports : ImportContext) (c : LLVMContext) (name : String)
    (checkStdlib : Bool) (it : Item)
    (hfound : baseFind c.scopes name = some it) (hvar : it.isVar = true)
    (hbase : c.getBase ≠ it.getBase) :
    find imports c name true checkStdlib = none := by
  rw [find_unfold]
  simp only [findBody, hfound, hvar, and_self, if_true, if_neg hbase]

theorem find_foreign_var_not_found_witness :
    find stdImports bodyCtx "x" true true = none :=
  find_foreign_var_not_found stdImports bodyCtx "x" true (Item.var 3 (some 1) true)
    (by decide) (by decide) (by decide)

/-- C7, as stated, fails: inside a function body (base 2), `find` with
`onlyLocal = true` and `checkStdlib = false` returns the module-level function `f`,
whose owning base is 1. -/
theorem find_local_returns_foreign_func :
    find stdImports bodyCtx "f" true false = some (Item.func (some 5) (some 1) true) ∧
    (Item.func (some 5) (some 1) true).getBase ≠ bodyCtx.getBase := by
  decide

/-- C7, amended: an entry returned by `find(name, onlyLocal = true, checkStdlib =
false)` is the innermost binding of the name, and if it is a variable its owning
base is the current base; a binding of another kind (type, function, import) is
returned whatever its base. -/
theorem find_local_var_base (imports : ImportContext) (c : LLVMContext) (name : String)
    (it : Item) (hfind : find imports c name true false = some it) :
    baseFind c.scopes name = some it ∧
    (it.isVar = true → it.getBase = c.getBase) ∧
    (∀ it2, baseFind c.scopes name = some it2 → it2.isVar = false →
      find imports c name true false = some it2) := by
  rw [find_no_stdlib] at hfind
  refine ⟨?_, ?_, ?_⟩
  · cases hb : baseFind c.scopes name with
    | none => rw [hb] at hfind; cases hfind
    | some it0 =>
      rw [hb] at hfind
      simp only at hfind
      split at hfind
      · split at hfind
        · exact hfind
        · cases hfind
      · exact hfind
  · intro hvar
    cases hb : baseFind c.scopes name with
    | none => rw [hb] at hfind; cases hfind
    | some it0 =>
      rw [hb] at hfind
      simp only at hfind
      split at hfind
      · split at hfind
        · rename_i hbase
          simp only [Option.some.injEq] at hfind
          rw [← hfind]; exact hbase.symm
        · cases hfind
      · rename_i hno
        simp only [Option.some.injEq] at hfind
        rw [hfind] at hno
        exact absurd ⟨hvar, trivial⟩ hno
  · intro it2 hb hnv
    rw [find_no_stdlib, hb]
    simp [hnv]

theorem find_local_var_base_witness :
    baseFind moduleCtx.scopes "x" = some (Item.var 3 (some 1) true) ∧
    ((Item.var 3 (some 1) true).isVar = true →
      (Item.var 3 (some 1) true).getBase = moduleCtx.getBase) ∧
    (∀ it2, baseFind moduleCtx.scopes "x" = some it2 → it2.isVar = false →
      find stdImports moduleCtx "x" true false = some it2) :=
  find_local_var_base stdImports moduleCtx "x" (Item.var 3 (some 1) true) (by decide)


/-! ### Blocks and bases -/

theorem getD_append_lt {α : Type} (d : α) : ∀ (l r : List α) (i : Nat), i < l.length →
    (l ++ r).getD i d = l.getD i d := by
  intro l
  induction l with
  | nil => intro r i h; cases h
  | cons x l ih =>
    intro r i h
    cases i with
    | zero => rfl
    | succ i => simpa using ih r i (by simpa using h)

theorem getD_append_len {α : Type} (d : α) (l : List α) (x : α) (r : List α) :
    (l ++ x :: r).getD l.length d = x := by
  induction l with
  | nil => rfl
  | cons y l ih => simpa using ih

theorem getD_dropLast {α : Type} (d : α) : ∀ (l : List α) (i : Nat), i + 1 < l.length →
    l.dropLast.getD i d = l.getD i d := by
  intro l
  induction l with
  | nil => intro i h; cases h
  | cons x l ih =>
    intro i h
    cases l with
    | nil => simp at h
    | cons y l =>
      cases i with
      | zero => rfl
      | succ i =>
        have := ih i (by simpa using h)
        simpa [List.dropLast] using this

theorem scanDown_spec (v : List (Option Ptr)) (h0 : (v.getD 0 none).isSome = true) :
    ∀ i, scanDown v i ≤ i ∧ (v.getD (scanDown v i) none).isSome = true ∧
      ∀ j, scanDown v i < j → j ≤ i → v.getD j none = none := by
  intro i
  induction i with
  | zero =>
    refine ⟨Nat.le_refl _, h0, ?_⟩
    intro j h1 h2
    simp only [scanDown] at h1
    omega
  | succ i ih =>
    obtain ⟨ih1, ih2, ih3⟩ := ih
    cases hv : v.getD (i + 1) none with
    | none =>
      have e : scanDown v (i + 1) = scanDown v i := by
        show (if (v.getD (i + 1) none).isNone then scanDown v i else i + 1) = scanDown v i
        rw [hv]; rfl
      rw [e]
      refine ⟨Nat.le_succ_of_le ih1, ih2, ?_⟩
      intro j h1 h2
      by_cases hj : j = i + 1
      · rw [hj]; exact hv
      · exact ih3 j h1 (by omega)
    | some p =>
      have e : scanDown v (i + 1) = i + 1 := by
        show (if (v.getD (i + 1) none).isNone then scanDown v i else i + 1) = i + 1
        rw [hv]; rfl
      rw [e]
      refine ⟨Nat.le_refl _, by rw [hv]; rfl, ?_⟩
      intro j h1 h2
      omega

theorem isTop_scanDown (v : List (Option Ptr)) (h0 : (v.getD 0 none).isSome = true)
    (hlen : 0 < v.length) : IsTopNonNull v (scanDown v (v.length - 1)) := by
  obtain ⟨h1, h2, h3⟩ := scanDown_spec v h0 (v.length - 1)
  exact ⟨by omega, h2, fun j hj hjl => h3 j hj (by omega)⟩

theorem isTop_unique {v : List (Option Ptr)} {i j : Nat}
    (hi : IsTopNonNull v i) (hj : IsTopNonNull v j) : i = j := by
  rcases Nat.lt_trichotomy i j with h | h | h
  · have := hi.2.2 j h hj.1
    have h2 := hj.2.1
    rw [this] at h2; cases h2
  · exact h
  · have := hj.2.2 i h hi.1
    have h2 := hi.2.1
    rw [this] at h2; cases h2

theorem isTop_push_some (v : List (Option Ptr)) (p : Ptr) :
    IsTopNonNull (v ++ [some p]) v.length := by
  refine ⟨by simp, ?_, ?_⟩
  · rw [getD_append_len]; rfl
  · intro j h1 h2
    simp only [List.length_append, List.length_singleton] at h2
    omega

theorem isTop_push_none (v : List (Option Ptr)) (i : Nat) (h : IsTopNonNull v i) :
    IsTopNonNull (v ++ [none]) i := by
  obtain ⟨h1, h2, h3⟩ := h
  refine ⟨by simp only [List.length_append, List.length_singleton]; omega, ?_, ?_⟩
  · rw [getD_append_lt _ _ _ _ h1]; exact h2
  · intro j hj hjl
    simp only [List.length_append, List.length_singleton] at hjl
    by_cases hjv : j < v.length
    · rw [getD_append_lt _ _ _ _ hjv]; exact h3 j hj hjv
    · have : j = v.length := by omega
      rw [this, getD_append_len]

theorem addBlock_bases (c : LLVMContext) (b f : Option Ptr) :
    (c.addBlock b f).bases = c.bases ++ [f] ∧ (c.addBlock b f).blocks = c.blocks ++ [b] := by
  cases b <;> cases f <;> exact ⟨rfl, rfl⟩

theorem addBlock_inv (c : LLVMContext) (b f : Option Ptr) (h : BlockInv c) :
    BlockInv (c.addBlock b f) := by
  obtain ⟨h1, h2, h3, h4, h5, h6⟩ := h
  have hb : IsTopNonNull (c.addBlock b f).bases (c.addBlock b f).topBaseIndex := by
    cases f with
    | none => cases b <;> exact isTop_push_none _ _ h5
    | some p => cases b <;> exact isTop_push_some _ _
  have hk : IsTopNonNull (c.addBlock b f).blocks (c.addBlock b f).topBlockIndex := by
    cases b with
    | none => cases f <;> exact isTop_push_none _ _ h6
    | some p => cases f <;> exact isTop_push_some _ _
  refine ⟨?_, ?_, ?_, ?_, hb, hk⟩
  · rw [(addBlock_bases c b f).1, getD_append_lt _ _ _ _ h3]; exact h1
  · rw [(addBlock_bases c b f).2, getD_append_lt _ _ _ _ h4]; exact h2
  · rw [(addBlock_bases c b f).1]; simp
  · rw [(addBlock_bases c b f).2]; simp

theorem popBlock_inv (c : LLVMContext) (h : BlockInv c)
    (hb : 2 ≤ c.bases.length) (hk : 2 ≤ c.blocks.length) :
    ∃ c1, c.popBlock = some c1 ∧ BlockInv c1 ∧
      c1.bases = c.bases.dropLast ∧ c1.blocks = c.blocks.dropLast := by
  obtain ⟨h1, h2, _, _, _, _⟩ := h
  have hcond : ¬ (c.bases.length ≤ 1 ∨ c.blocks.length ≤ 1) := by omega
  refine ⟨{ c with bases := c.bases.dropLast,
                   topBaseIndex := scanDown c.bases.dropLast (c.bases.dropLast.length - 1),
                   blocks := c.blocks.dropLast,
                   topBlockIndex := scanDown c.blocks.dropLast (c.blocks.dropLast.length - 1),
                   scopes := c.scopes.drop 1 },
    by simp only [popBlock, if_neg hcond], ?_, rfl, rfl⟩
  have e1 : (c.bases.dropLast.getD 0 none).isSome = true := by
    rw [getD_dropLast _ _ _ (by omega)]; exact h1
  have e2 : (c.blocks.dropLast.getD 0 none).isSome = true := by
    rw [getD_dropLast _ _ _ (by omega)]; exact h2
  have l1 : 0 < c.bases.dropLast.length := by simp; omega
  have l2 : 0 < c.blocks.dropLast.length := by simp; omega
  exact ⟨e1, e2, l1, l2, isTop_scanDown _ e1 l1, isTop_scanDown _ e2 l2⟩

theorem new_inv (fn : String) (block base : Ptr) :
    BlockInv (LLVMContext.new fn (some block) (some base)) := by
  have e1 : (LLVMContext.new fn (some block) (some base)).bases = [some base] := rfl
  have e2 : (LLVMContext.new fn (some block) (some base)).blocks = [some block] := rfl
  have e3 : (LLVMContext.new fn (some block) (some base)).topBaseIndex = 0 := rfl
  have e4 : (LLVMContext.new fn (some block) (some base)).topBlockIndex = 0 := rfl
  unfold BlockInv IsTopNonNull
  rw [e1, e2, e3, e4]
  refine ⟨rfl, rfl, by simp, by simp, ⟨by simp, rfl, ?_⟩, ⟨by simp, rfl, ?_⟩⟩
  · intro j h1 h2; simp at h2; omega
  · intro j h1 h2; simp at h2; omega

/-- A well-nested sequence of calls started `d` levels above a non-empty bottom part
runs to the end, keeps the invariant and leaves the bottom part untouched. -/
theorem runOps_nested : ∀ (ops : List BlockOp) (d d2 : Nat) (c : LLVMContext)
    (pb xb pk xk : List (Option Ptr)),
    depthAfter d ops = some d2 → BlockInv c →
    c.bases = pb ++ xb → xb.length = d → pb ≠ [] →
    c.blocks = pk ++ xk → xk.length = d → pk ≠ [] →
    ∃ c2 xb2 xk2, runOps ops c = some c2 ∧ BlockInv c2 ∧
      c2.bases = pb ++ xb2 ∧ xb2.length = d2 ∧ c2.blocks = pk ++ xk2 ∧ xk2.length = d2 := by
  intro ops
  induction ops with
  | nil =>
    intro d d2 c pb xb pk xk hd hinv hb hxb hpb hk hxk hpk
    simp only [depthAfter, Option.some.injEq] at hd
    exact ⟨c, xb, xk, rfl, hinv, hb, by omega, hk, by omega⟩
  | cons op ops ih =>
    intro d d2 c pb xb pk xk hd hinv hb hxb hpb hk hxk hpk
    cases op with
    | add b f =>
      simp only [depthAfter] at hd
      have hab := addBlock_bases c b f
      exact ih (d + 1) d2 (c.addBlock b f) pb (xb ++ [f]) pk (xk ++ [b]) hd
        (addBlock_inv c b f hinv)
        (by rw [hab.1, hb, List.append_assoc]) (by simp [hxb]) hpb
        (by rw [hab.2, hk, List.append_assoc]) (by simp [hxk]) hpk
    | pop =>
      cases d with
      | zero => simp [depthAfter] at hd
      | succ d =>
        simp only [depthAfter] at hd
        have hxbne : xb ≠ [] := by intro h; rw [h] at hxb; cases hxb
        have hxkne : xk ≠ [] := by intro h; rw [h] at hxk; cases hxk
        have hpbl : 0 < pb.length := List.length_pos.2 hpb
        have hpkl : 0 < pk.length := List.length_pos.2 hpk
        have lb : 2 ≤ c.bases.length := by rw [hb, List.length_append]; omega
        have lk : 2 ≤ c.blocks.length := by rw [hk, List.length_append]; omega
        obtain ⟨c1, hpop, hinv1, hb1, hk1⟩ := popBlock_inv c hinv lb lk
        have hb2 : c1.bases = pb ++ xb.dropLast := by
          rw [hb1, hb, List.dropLast_append_of_ne_nil _ hxbne]
        have hk2 : c1.blocks = pk ++ xk.dropLast := by
          rw [hk1, hk, List.dropLast_append_of_ne_nil _ hxkne]
        obtain ⟨c2, xb2, xk2, hrun, rest⟩ := ih d d2 c1 pb xb.dropLast pk xk.dropLast hd hinv1
          hb2 (by simp [hxb]) hpb hk2 (by simp [hxk]) hpk
        exact ⟨c2, xb2, xk2, by simp only [runOps, hpop, hrun], rest⟩

theorem depthAfter_shift : ∀ (a : List BlockOp) (d d2 k : Nat),
    depthAfter d a = some d2 → depthAfter (d + k) a = some (d2 + k) := by
  intro a
  induction a with
  | nil => intro d d2 k h; simp only [depthAfter, Option.some.injEq] at h ⊢; omega
  | cons op a ih =>
    intro d d2 k h
    cases op with
    | add x y =>
      simp only [depthAfter] at h ⊢
      have := ih (d + 1) d2 k h
      rw [show d + k + 1 = d + 1 + k by omega]; exact this
    | pop =>
      cases d with
      | zero => simp [depthAfter] at h
      | succ d =>
        simp only [depthAfter] at h
        have := ih d d2 k h
        rw [show d + 1 + k = (d + k) + 1 by omega]
        simpa [depthAfter] using this

/-- C8: in a context constructed with a non-null block and a non-null base, every
sequence of `addBlock` / `popBlock` calls in which each `popBlock` has an earlier
unmatched `addBlock` runs to its end, and afterwards `topBaseIndex` is a valid
index of `bases`, holds a non-null base and is the greatest such index, and the
same for `topBlockIndex` and `blocks`. A `popBlock` that matches an `addBlock`
(any well-nested calls in between) restores `bases`, `blocks` and both indices to
what they were before that `addBlock`, whatever base and block it supplied. -/
theorem blocks_top_indices (fn : String) (block base : Ptr) (ops : List BlockOp) (d : Nat)
    (hd : depthAfter 0 ops = some d) :
    ∃ c, runOps ops (LLVMContext.new fn (some block) (some base)) = some c ∧
      IsTopNonNull c.bases c.topBaseIndex ∧ IsTopNonNull c.blocks c.topBlockIndex ∧
      ∀ (newBlock newBase : Option Ptr) (ops2 : List BlockOp), depthAfter 0 ops2 = some 0 →
        ∃ c2 c3, runOps ops2 (c.addBlock newBlock newBase) = some c2 ∧
          c2.popBlock = some c3 ∧
          c3.topBaseIndex = c.topBaseIndex ∧ c3.topBlockIndex = c.topBlockIndex ∧
          c3.bases = c.bases ∧ c3.blocks = c.blocks := by
  have hnew := new_inv fn block base
  obtain ⟨c, xb, xk, hrun, hinv, hb, hxb, hk, hxk⟩ :=
    runOps_nested ops 0 d (LLVMContext.new fn (some block) (some base))
      [some base] [] [some block] [] hd hnew rfl rfl (by simp) rfl rfl (by simp)
  refine ⟨c, hrun, hinv.2.2.2.2.1, hinv.2.2.2.2.2, ?_⟩
  intro nb ne ops2 h2
  have hcb : c.bases ≠ [] := List.length_pos.1 hinv.2.2.1
  have hck : c.blocks ≠ [] := List.length_pos.1 hinv.2.2.2.1
  have hab := addBlock_bases c nb ne
  have hd1 : depthAfter 1 ops2 = some 1 := by
    simpa using depthAfter_shift ops2 0 0 1 h2
  obtain ⟨c2, xb2, xk2, hrun2, hinv2, hb2, hxb2, hk2, hxk2⟩ :=
    runOps_nested ops2 1 1 (c.addBlock nb ne) c.bases [ne] c.blocks [nb] hd1
      (addBlock_inv c nb ne hinv) hab.1 rfl hcb hab.2 rfl hck
  have lb : 2 ≤ c2.bases.length := by
    rw [hb2, List.length_append]; have := hinv.2.2.1; omega
  have lk : 2 ≤ c2.blocks.length := by
    rw [hk2, List.length_append]; have := hinv.2.2.2.1; omega
  obtain ⟨c3, hpop, hinv3, hb3, hk3⟩ := popBlock_inv c2 hinv2 lb lk
  have hxb2ne : xb2 ≠ [] := by intro h; rw [h] at hxb2; cases hxb2
  have hxk2ne : xk2 ≠ [] := by intro h; rw [h] at hxk2; cases hxk2
  have eb : c3.bases = c.bases := by
    rw [hb3, hb2, List.dropLast_append_of_ne_nil _ hxb2ne]
    have : xb2.dropLast = [] := List.length_eq_zero.1 (by simp [hxb2])
    rw [this, List.append_nil]
  have ek : c3.blocks = c.blocks := by
    rw [hk3, hk2, List.dropLast_append_of_ne_nil _ hxk2ne]
    have : xk2.dropLast = [] := List.length_eq_zero.1 (by simp [hxk2])
    rw [this, List.append_nil]
  refine ⟨c2, c3, hrun2, hpop, ?_, ?_, eb, ek⟩
  · have h3 := hinv3.2.2.2.2.1
    rw [eb] at h3
    exact isTop_unique h3 hinv.2.2.2.2.1
  · have h3 := hinv3.2.2.2.2.2
    rw [ek] at h3
    exact isTop_unique h3 hinv.2.2.2.2.2

theorem blocks_top_indices_witness :
    ∃ c, runOps [BlockOp.add none none, BlockOp.add (some 11) (some 2), BlockOp.pop]
        (LLVMContext.new "main.seq" (some 10) (some 1)) = some c ∧
      IsTopNonNull c.bases c.topBaseIndex ∧ IsTopNonNull c.blocks c.topBlockIndex ∧
      ∀ (newBlock newBase : Option Ptr) (ops2 : List BlockOp), depthAfter 0 ops2 = some 0 →
        ∃ c2 c3, runOps ops2 (c.addBlock newBlock newBase) = some c2 ∧
          c2.popBlock = some c3 ∧
          c3.topBaseIndex = c.topBaseIndex ∧ c3.topBlockIndex = c.topBlockIndex ∧
          c3.bases = c.bases ∧ c3.blocks = c.blocks :=
  blocks_top_indices "main.seq" 10 1
    [BlockOp.add none none, BlockOp.add (some 11) (some 2), BlockOp.pop] 1 (by decide)


/-! ### The simplification pass -/

theorem onCtx_cache {σ α : Type} (w : World σ) (p : Nat)
    (f : SimplifyContext σ → α × SimplifyContext σ) (a : α) (w2 : World σ)
    (h : onCtx w p f = .ok (a, w2)) : w2.cache = w.cache := by
  unfold onCtx at h
  split at h
  · cases h
  · simp only [Except.ok.injEq, Prod.mk.injEq] at h
    rw [← h.2]

theorem loadDefines_cache {σ : Type} (ext : Externals σ) (p : Nat) :
    ∀ (ds nd : Defines) (w : World σ) (nd2 : Defines) (w2 : World σ),
      loadDefines ext p ds nd w = .ok (nd2, w2) → w2.cache = w.cache := by
  intro ds
  induction ds with
  | nil =>
    intro nd w nd2 w2 h
    simp only [loadDefines, Except.ok.injEq, Prod.mk.injEq] at h
    rw [← h.2]
  | cons d ds ih =>
    intro nd w nd2 w2 h
    obtain ⟨name, text, v⟩ := d
    simp only [loadDefines] at h
    split at h
    · cases h
    · rename_i canName w1 h1
      split at h
      · cases h
      · split at h
        · cases h
        · rename_i u w3 h3
          rw [ih _ _ _ _ h, onCtx_cache _ _ _ _ _ h3, onCtx_cache _ _ _ _ _ h1]

theorem ensureModule_imports {σ : Type} (w : World σ) :
    (ensureModule w).cache.imports = w.cache.imports ∧ (ensureModule w).ctxs = w.ctxs := by
  unfold ensureModule
  split <;> exact ⟨rfl, rfl⟩

/-- What a successful run of the second half of `apply` did. -/
theorem applyRest_spec {σ : Type} (ext : Externals σ) (stmts : List Stmt) (pre : Preamble)
    (w : World σ) (node : Stmt) (file : String) (defines : Defines)
    (suite : Stmt) (defs2 : Defines) (w2 : World σ)
    (h : applyRest ext stmts pre w node file defines = .ok (suite, defs2, w2)) :
    ∃ imp ctx w3 nodeT pre1,
      mapFind STDLIB_IMPORT w.cache.imports = some imp ∧ imp.ctx = some ctx ∧
      w3.cache.imports = w.cache.imports ∧
      ext.transform ctx pre w3 node = .ok (nodeT, pre1, w2) ∧
      suite = Stmt.suite
        (pre1.types ++ pre1.globals ++ pre1.functions ++ (stmts ++ [nameAssign, nodeT])) := by
  unfold applyRest at h
  simp only at h
  split at h
  · cases h
  rename_i imp himp
  split at h
  · cases h
  rename_i ctx hctx
  split at h
  · cases h
  rename_i u wa ha
  split at h
  · cases h
  rename_i nd wb hb
  split at h
  · cases h
  rename_i nodeT pre1 wc hc
  simp only [Except.ok.injEq, Prod.mk.injEq] at h
  refine ⟨imp, ctx, wb, nodeT, pre1, himp, hctx, ?_, ?_, ?_⟩
  · rw [loadDefines_cache _ _ _ _ _ _ _ hb, onCtx_cache _ _ _ _ _ ha]
  · rw [hc, h.2.2]
  · rw [← h.1]
    simp [buildSuite]

/-- What a successful bootstrap pushed onto `stmts`: the transformed standard
library file and nothing else. -/
theorem bootstrap_spec {σ : Type} (ext : Externals σ) (w : World σ) (barebones : Bool)
    (stmts : List Stmt) (pre : Preamble) (w2 : World σ)
    (h : bootstrap ext w barebones = .ok (stmts, pre, w2)) :
    ∃ path stdAst stdT preA wA preB wB,
      ext.parseFile path = .ok stdAst ∧
      ext.transform w.ctxs.length preA wA stdAst = .ok (stdT, preB, wB) ∧
      stmts = [stdT] := by
  unfold bootstrap at h
  simp only at h
  split at h
  · cases h
  split at h
  · cases h
  split at h
  · cases h
  split at h
  · cases h
  split at h
  · cases h
  split at h
  · cases h
  split at h
  · cases h
  split at h
  · cases h
  split at h
  · cases h
  split at h
  · cases h
  split at h
  · cases h
  split at h
  · cases h
  split at h
  · cases h
  rename_i stdAst hparse
  split at h
  · cases h
  rename_i stdT preB wB htr
  split at h
  · cases h
  split at h
  · cases h
  simp only [Except.ok.injEq, Prod.mk.injEq] at h
  exact ⟨_, stdAst, stdT, _, _, preB, wB, hparse, htr, h.1.symm⟩


/-- C9: the suite returned by either overload of `SimplifyVisitor::apply` is the
final preamble's types, then its globals, then its generated functions, then the
bodies. For the context overload the only body is the transformed node. For the
cache overload the bodies are the transformed standard-library file (exactly
when the reserved key was missing, so that this call loaded the library), then
the `__name__` assignment, then the transformed input node. -/
theorem apply_suite_order {σ : Type} (ext : Externals σ) :
    (∀ ctx w node file suite w2, applyCtx ext ctx w node file = .ok (suite, w2) →
      ∃ nodeT pre, ext.transform ctx Preamble.empty w node = .ok (nodeT, pre, w2) ∧
        suite = Stmt.suite (pre.types ++ pre.globals ++ pre.functions ++ [nodeT])) ∧
    (∀ w node file defines barebones suite defs2 w2,
      apply ext w node file defines barebones = .ok (suite, defs2, w2) →
      ∃ bodies0 pre0 ctx w3 nodeT pre,
        ext.transform ctx pre0 w3 node = .ok (nodeT, pre, w2) ∧
        suite = Stmt.suite
          (pre.types ++ pre.globals ++ pre.functions ++ (bodies0 ++ [nameAssign, nodeT])) ∧
        (mapHas STDLIB_IMPORT w.cache.imports = true →
          bodies0 = [] ∧ pre0 = Preamble.empty) ∧
        (mapHas STDLIB_IMPORT w.cache.imports = false →
          ∃ path stdAst stdT preA wA preB wB,
            ext.parseFile path = .ok stdAst ∧
            ext.transform w.ctxs.length preA wA stdAst = .ok (stdT, preB, wB) ∧
            bodies0 = [stdT])) := by
  constructor
  · intro ctx w node file suite w2 h
    unfold applyCtx at h
    split at h
    · cases h
    · rename_i nodeT pre w1 ht
      simp only [Except.ok.injEq, Prod.mk.injEq] at h
      refine ⟨nodeT, pre, ?_, ?_⟩
      · rw [ht, h.2]
      · rw [← h.1]; simp [buildSuite]
  · intro w node file defines barebones suite defs2 w2 h
    unfold apply at h
    simp only at h
    have him := (ensureModule_imports w).1
    have hcx := (ensureModule_imports w).2
    split at h
    · rename_i hno
      rw [him] at hno
      split at h
      · cases h
      · rename_i stmts pre0 wb hboot
        obtain ⟨imp, ctx, w3, nodeT, pre, _, _, _, htr, hs⟩ :=
          applyRest_spec ext stmts pre0 wb node file defines suite defs2 w2 h
        obtain ⟨path, stdAst, stdT, preA, wA, preB, wB, hp, ht, hst⟩ :=
          bootstrap_spec ext _ barebones stmts pre0 wb hboot
        rw [hcx] at ht
        refine ⟨stmts, pre0, ctx, w3, nodeT, pre, htr, hs, ?_, ?_⟩
        · intro hyes; rw [hno] at hyes; cases hyes
        · intro _; exact ⟨path, stdAst, stdT, preA, wA, preB, wB, hp, ht, hst⟩
    · rename_i hyes
      rw [him] at hyes
      obtain ⟨imp, ctx, w3, nodeT, pre, _, _, _, htr, hs⟩ :=
        applyRest_spec ext [] Preamble.empty _ node file defines suite defs2 w2 h
      refine ⟨[], Preamble.empty, ctx, w3, nodeT, pre, htr, hs, ?_, ?_⟩
      · intro _; exact ⟨rfl, rfl⟩
      · intro hno; exact absurd hno hyes

theorem apply_suite_order_witness :
    (∃ nodeT pre, demoExt.transform 0 Preamble.empty demoWorld1 (Stmt.node 8)
        = .ok (nodeT, pre, demoWorld1) ∧
      Stmt.suite [Stmt.node 99, Stmt.node 8]
        = Stmt.suite (pre.types ++ pre.globals ++ pre.functions ++ [nodeT])) ∧
    (∃ bodies0 pre0 ctx w3 nodeT pre,
      demoExt.transform ctx pre0 w3 (Stmt.node 7) = .ok (nodeT, pre, demoWorld1) ∧
      demoSuite1 = Stmt.suite
        (pre.types ++ pre.globals ++ pre.functions ++ (bodies0 ++ [nameAssign, nodeT])) ∧
      (mapHas STDLIB_IMPORT demoWorld.cache.imports = true →
        bodies0 = [] ∧ pre0 = Preamble.empty) ∧
      (mapHas STDLIB_IMPORT demoWorld.cache.imports = false →
        ∃ path stdAst stdT preA wA preB wB,
          demoExt.parseFile path = .ok stdAst ∧
          demoExt.transform demoWorld.ctxs.length preA wA stdAst = .ok (stdT, preB, wB) ∧
          bodies0 = [stdT])) :=
  ⟨(apply_suite_order demoExt).1 0 demoWorld1 (Stmt.node 8) "other.seq"
      (Stmt.suite [Stmt.node 99, Stmt.node 8]) demoWorld1 rfl,
   (apply_suite_order demoExt).2 demoWorld (Stmt.node 7) "main.seq" [] false
      demoSuite1 [] demoWorld1 rfl⟩

theorem apply_loaded {σ : Type} (ext : Externals σ) (hkeep : KeepsStdlib ext)
    (w : World σ) (a : ApplyArgs) (imp : ImportRec) (suite : Stmt) (defs2 : Defines)
    (w2 : World σ)
    (himp : mapFind STDLIB_IMPORT w.cache.imports = some imp)
    (h : apply ext w a.node a.file a.defines a.barebones = .ok (suite, defs2, w2)) :
    LoadedCall ext imp (w, a, suite) ∧ mapFind STDLIB_IMPORT w2.cache.imports = some imp := by
  have him := (ensureModule_imports w).1
  have hhas : ¬ (mapHas STDLIB_IMPORT (ensureModule w).cache.imports = false) := by
    rw [him]; simp [mapHas, himp]
  have e : apply ext w a.node a.file a.defines a.barebones
      = applyRest ext [] Preamble.empty (ensureModule w) a.node a.file a.defines := by
    unfold apply
    simp only [if_neg hhas]
  rw [e] at h
  obtain ⟨imp2, ctx, w3, nodeT, pre, hi2, _, hw3, htr, hs⟩ :=
    applyRest_spec ext [] Preamble.empty _ a.node a.file a.defines suite defs2 w2 h
  refine ⟨⟨himp, e, ctx, w3, nodeT, pre, w2, htr, ?_⟩, ?_⟩
  · rw [hs]; rfl
  · rw [hkeep _ _ _ _ _ _ _ htr, hw3, him]; exact himp

theorem apply_leaves_stdlib {σ : Type} (ext : Externals σ) (hkeep : KeepsStdlib ext)
    (w : World σ) (a : ApplyArgs) (suite : Stmt) (defs2 : Defines) (w2 : World σ)
    (h : apply ext w a.node a.file a.defines a.barebones = .ok (suite, defs2, w2)) :
    ∃ imp, mapFind STDLIB_IMPORT w2.cache.imports = some imp := by
  unfold apply at h
  simp only at h
  split at h
  · split at h
    · cases h
    · obtain ⟨imp, ctx, w3, nodeT, pre, hi, _, hw3, htr, _⟩ :=
        applyRest_spec ext _ _ _ _ _ _ _ _ _ h
      exact ⟨imp, by rw [hkeep _ _ _ _ _ _ _ htr, hw3]; exact hi⟩
  · obtain ⟨imp, ctx, w3, nodeT, pre, hi, _, hw3, htr, _⟩ :=
      applyRest_spec ext _ _ _ _ _ _ _ _ _ h
    exact ⟨imp, by rw [hkeep _ _ _ _ _ _ _ htr, hw3]; exact hi⟩

theorem applyAll_loaded {σ : Type} (ext : Externals σ) (hkeep : KeepsStdlib ext) :
    ∀ (calls : List ApplyArgs) (w : World σ) (imp : ImportRec)
      (trace : List (World σ × ApplyArgs × Stmt)) (wN : World σ),
      mapFind STDLIB_IMPORT w.cache.imports = some imp →
      applyAll ext w calls = .ok (trace, wN) →
      mapFind STDLIB_IMPORT wN.cache.imports = some imp ∧
      trace.map (fun e => e.2.1) = calls ∧
      ∀ e ∈ trace, LoadedCall ext imp e := by
  intro calls
  induction calls with
  | nil =>
    intro w imp trace wN himp h
    simp only [applyAll, Except.ok.injEq, Prod.mk.injEq] at h
    rw [← h.1, ← h.2]
    exact ⟨himp, rfl, fun e he => by cases he⟩
  | cons a rest ih =>
    intro w imp trace wN himp h
    simp only [applyAll] at h
    split at h
    · cases h
    · rename_i suite defs2 w1 hap
      split at h
      · cases h
      · rename_i tr wE hrest
        simp only [Except.ok.injEq, Prod.mk.injEq] at h
        obtain ⟨hl, hw1⟩ := apply_loaded ext hkeep w a imp suite defs2 w1 himp hap
        obtain ⟨hN, hmap, hall⟩ := ih w1 imp tr wE hw1 hrest
        rw [← h.1, ← h.2]
        refine ⟨hN, by simp [hmap], ?_⟩
        intro e he
        rcases List.mem_cons.1 he with h1 | h1
        · rw [h1]; exact hl
        · exact hall e h1

/-- C10: in a sequence of successful `apply` calls on one cache (the visitor never
touching the record under the reserved key), every call after the first finds
the reserved key in `cache->imports` with one and the same record (same path,
same context pointer), which is also the record the last call leaves; such a
call does not enter the bootstrap block: it is the second half of `apply` run
on no statement and an empty preamble, so its preamble holds only what
`transform` of its own node hoisted and no built-in class declaration. If the key
was missing before the first call, the first call ran the bootstrap. -/
theorem stdlib_bootstrap_once {σ : Type} (ext : Externals σ) (hkeep : KeepsStdlib ext)
    (w0 : World σ) (first : ApplyArgs) (later : List ApplyArgs)
    (trace : List (World σ × ApplyArgs × Stmt)) (wN : World σ)
    (hrun : applyAll ext w0 (first :: later) = .ok (trace, wN)) :
    ∃ imp, mapFind STDLIB_IMPORT wN.cache.imports = some imp ∧
      trace.map (fun e => e.2.1) = first :: later ∧
      (∀ e ∈ trace.tail, LoadedCall ext imp e) ∧
      (mapHas STDLIB_IMPORT w0.cache.imports = false →
        ∃ stmts pre w1, bootstrap ext (ensureModule w0) first.barebones
          = .ok (stmts, pre, w1)) := by
  simp only [applyAll] at hrun
  split at hrun
  · cases hrun
  · rename_i suite defs2 w1 hap
    split at hrun
    · cases hrun
    · rename_i tr wE hrest
      simp only [Except.ok.injEq, Prod.mk.injEq] at hrun
      obtain ⟨imp, himp⟩ := apply_leaves_stdlib ext hkeep w0 first suite defs2 w1 hap
      obtain ⟨hN, hmap, hall⟩ := applyAll_loaded ext hkeep later w1 imp tr wE himp hrest
      rw [← hrun.1, ← hrun.2]
      refine ⟨imp, hN, by simp [hmap], hall, ?_⟩
      intro hno
      unfold apply at hap
      simp only at hap
      rw [← (ensureModule_imports w0).1] at hno
      rw [if_pos hno] at hap
      split at hap
      · cases hap
      · rename_i stmts pre wb hboot
        exact ⟨stmts, pre, wb, hboot⟩

theorem demoExt_keeps : KeepsStdlib demoExt := by
  intro p pre w s r pre2 w2 h
  simp only [demoExt, Except.ok.injEq, Prod.mk.injEq] at h
  rw [← h.2.2]

theorem stdlib_bootstrap_once_witness :
    ∃ imp, mapFind STDLIB_IMPORT demoWorld2.cache.imports = some imp ∧
      [(demoWorld, (⟨Stmt.node 7, "main.seq", [], false⟩ : ApplyArgs), demoSuite1),
       (demoWorld1, (⟨Stmt.node 8, "other.seq", [], false⟩ : ApplyArgs), demoSuite2)].map
          (fun e => e.2.1)
        = [⟨Stmt.node 7, "main.seq", [], false⟩, ⟨Stmt.node 8, "other.seq", [], false⟩] ∧
      (∀ e ∈ [(demoWorld, (⟨Stmt.node 7, "main.seq", [], false⟩ : ApplyArgs), demoSuite1),
          (demoWorld1, (⟨Stmt.node 8, "other.seq", [], false⟩ : ApplyArgs), demoSuite2)].tail,
        LoadedCall demoExt imp e) ∧
      (mapHas STDLIB_IMPORT demoWorld.cache.imports = false →
        ∃ stmts pre w1, bootstrap demoExt (ensureModule demoWorld) false
          = .ok (stmts, pre, w1)) :=
  stdlib_bootstrap_once demoExt demoExt_keeps demoWorld
    ⟨Stmt.node 7, "main.seq", [], false⟩ [⟨Stmt.node 8, "other.seq", [], false⟩]
    _ demoWorld2 rfl


/-! ### The standard-library context in later calls -/

theorem get?_set_self {α : Type} : ∀ (l : List α) (p : Nat) (c x : α),
    l.get? p = some c → (l.set p x).get? p = some x := by
  intro l
  induction l with
  | nil => intro p c x h; cases h
  | cons a l ih =>
    intro p c x h
    cases p with
    | zero => rfl
    | succ p => simpa using ih p c x (by simpa using h)

theorem set_set_self {α : Type} : ∀ (l : List α) (p : Nat) (x y : α),
    (l.set p x).set p y = l.set p y := by
  intro l
  induction l with
  | nil => intro p x y; rfl
  | cons a l ih =>
    intro p x y
    cases p with
    | zero => rfl
    | succ p => simp [ih]

theorem set_of_get? {α : Type} : ∀ (l : List α) (p : Nat) (c : α),
    l.get? p = some c → l.set p c = l := by
  intro l
  induction l with
  | nil => intro p c h; rfl
  | cons a l ih =>
    intro p c h
    cases p with
    | zero =>
      simp only [List.get?, Option.some.injEq] at h
      rw [h]; rfl
    | succ p => simp [ih p c (by simpa using h)]

theorem onCtx_spec {σ α : Type} (w : World σ) (p : Nat)
    (f : SimplifyContext σ → α × SimplifyContext σ) (a : α) (w2 : World σ)
    (c : SimplifyContext σ) (hc : w.ctxs.get? p = some c)
    (h : onCtx w p f = .ok (a, w2)) :
    a = (f c).1 ∧ w2.ctxs = w.ctxs.set p (f c).2 ∧ w2.cache = w.cache := by
  unfold onCtx at h
  rw [hc] at h
  simp only [Except.ok.injEq, Prod.mk.injEq] at h
  rw [← h.1, ← h.2]
  exact ⟨rfl, rfl, rfl⟩

/-- The loop over the defines changes the context behind `p` and nothing else. -/
theorem loadDefines_ctxs {σ : Type} (ext : Externals σ) (p : Nat) :
    ∀ (ds nd : Defines) (w : World σ) (c : SimplifyContext σ) (nd2 : Defines) (w2 : World σ),
      w.ctxs.get? p = some c →
      loadDefines ext p ds nd w = .ok (nd2, w2) →
      w2.ctxs = w.ctxs.set p (definesCtx ext ds c) := by
  intro ds
  induction ds with
  | nil =>
    intro nd w c nd2 w2 hc h
    simp only [loadDefines, Except.ok.injEq, Prod.mk.injEq] at h
    rw [← h.2]
    simp only [definesCtx]
    exact (set_of_get? _ _ _ hc).symm
  | cons d ds ih =>
    intro nd w c nd2 w2 hc h
    obtain ⟨name, text, v⟩ := d
    simp only [loadDefines] at h
    split at h
    · cases h
    · rename_i canName w1 h1
      split at h
      · cases h
      · split at h
        · cases h
        · rename_i u w3 h3
          obtain ⟨e1, e2, _⟩ := onCtx_spec w p _ canName w1 c hc h1
          have hc1 : w1.ctxs.get? p = some (ext.generateCanonicalName c name).2 := by
            rw [e2]; exact get?_set_self _ _ _ _ hc
          obtain ⟨_, e3, _⟩ := onCtx_spec w1 p _ u w3 _ hc1 h3
          have hc3 : w3.ctxs.get? p = some (ext.add (ext.generateCanonicalName c name).2
              SimplifyItemKind.Type name canName false true) := by
            rw [e3]; exact get?_set_self _ _ _ _ hc1
          rw [ih _ _ _ _ _ hc3 h, e3, e2, set_set_self, set_set_self]
          simp only [definesCtx, e1]

/-- C11, as stated, fails: the cache `demoWorld1` has its standard library loaded
(record under the reserved key, context 0, file name `main.seq`); a further
`apply` for the file `other.seq`, with a visitor that changes no context, leaves
context 0 with the file name `other.seq`. -/
theorem apply_renames_stdlib_context :
    mapFind STDLIB_IMPORT demoWorld1.cache.imports
      = some ⟨"/lib/stdlib/internal/__init__.seq", some 0⟩ ∧
    (demoWorld1.ctxs.get? 0).map (fun c => c.filename) = some "main.seq" ∧
    apply demoExt demoWorld1 (Stmt.node 8) "other.seq" [] false
      = .ok (demoSuite2, [], demoWorld2) ∧
    (demoWorld2.ctxs.get? 0).map (fun c => c.filename) = some "other.seq" := by
  refine ⟨rfl, rfl, rfl, rfl⟩

/-- The second half of `apply` works on the context the reserved key points to. -/
theorem applyRest_ctx {σ : Type} (ext : Externals σ) (stmts : List Stmt) (pre : Preamble)
    (w : World σ) (node : Stmt) (file : String) (defines : Defines)
    (imp : ImportRec) (p : Nat) (c : SimplifyContext σ)
    (suite : Stmt) (defs2 : Defines) (w2 : World σ)
    (himp : mapFind STDLIB_IMPORT w.cache.imports = some imp) (hp : imp.ctx = some p)
    (hc : w.ctxs.get? p = some c)
    (h : applyRest ext stmts pre w node file defines = .ok (suite, defs2, w2)) :
    ∃ w3 nodeT pre1,
      ext.transform p pre w3 node = .ok (nodeT, pre1, w2) ∧
      w3.ctxs = w.ctxs.set p
        (definesCtx ext defines { c with filename := file, moduleName := MODULE_MAIN }) ∧
      w3.cache.imports = w.cache.imports := by
  unfold applyRest at h
  simp only at h
  split at h
  · cases h
  rename_i imp2 himp2
  have e : imp2 = imp := by
    have h1 : mapFind STDLIB_IMPORT w.cache.imports = some imp2 := himp2
    rw [himp] at h1
    exact (Option.some.inj h1).symm
  subst e
  split at h
  · cases h
  rename_i ctx hctx
  have e2 : ctx = p := by
    rw [hp] at hctx
    exact (Option.some.inj hctx).symm
  subst e2
  split at h
  · cases h
  rename_i u wa ha
  split at h
  · cases h
  rename_i nd wb hb
  split at h
  · cases h
  rename_i nodeT pre1 wc hcg
  simp only [Except.ok.injEq, Prod.mk.injEq] at h
  have hc1 : (({ w with cache := { w.cache with age := w.cache.age + 1 } }
      : World σ)).ctxs.get? ctx = some c := hc
  obtain ⟨_, ea, eca⟩ := onCtx_spec _ ctx _ u wa c hc1 ha
  have hca : wa.ctxs.get? ctx
      = some { c with filename := file, moduleName := MODULE_MAIN } := by
    rw [ea]; exact get?_set_self _ _ _ _ hc1
  have eb := loadDefines_ctxs ext ctx defines [] wa _ nd wb hca hb
  have ecb := loadDefines_cache ext ctx defines [] wa nd wb hb
  refine ⟨wb, nodeT, pre1, ?_, ?_, ?_⟩
  · rw [hcg, h.2.2]
  · rw [eb, ea, set_set_self]
  · rw [ecb, eca]

/-- C11, amended: an `apply` call on a cache whose standard library is already
loaded does not leave the standard-library context as it was: it reuses it as
the context of the entry module. In the world in which the input node is handed
to `transform`, that context has the call's file as file name and the
main-module marker as module name and has been given one canonical name and one
type symbol per define; up to that point no context has been created and every
other context and the import table are as before the call. What `transform`
then does to contexts and imports is its own affair. -/
theorem apply_reuses_stdlib_context {σ : Type} (ext : Externals σ) (w : World σ)
    (node : Stmt) (file : String) (defines : Defines) (barebones : Bool)
    (imp : ImportRec) (p : Nat) (c : SimplifyContext σ)
    (suite : Stmt) (defs2 : Defines) (w2 : World σ)
    (himp : mapFind STDLIB_IMPORT w.cache.imports = some imp) (hp : imp.ctx = some p)
    (hc : w.ctxs.get? p = some c)
    (h : apply ext w node file defines barebones = .ok (suite, defs2, w2)) :
    ∃ w3 nodeT pre,
      ext.transform p Preamble.empty w3 node = .ok (nodeT, pre, w2) ∧
      w3.ctxs = w.ctxs.set p
        (definesCtx ext defines { c with filename := file, moduleName := MODULE_MAIN }) ∧
      w3.ctxs.length = w.ctxs.length ∧
      w3.cache.imports = w.cache.imports := by
  have him := (ensureModule_imports w).1
  have hcx := (ensureModule_imports w).2
  have hhas : ¬ (mapHas STDLIB_IMPORT (ensureModule w).cache.imports = false) := by
    rw [him]; simp [mapHas, himp]
  unfold apply at h
  simp only [if_neg hhas] at h
  obtain ⟨w3, nodeT, pre1, ht, e3, ei⟩ :=
    applyRest_ctx ext [] Preamble.empty (ensureModule w) node file defines imp p c
      suite defs2 w2 (by rw [him]; exact himp) hp (by rw [hcx]; exact hc) h
  rw [hcx] at e3
  refine ⟨w3, nodeT, pre1, ht, e3, ?_, ?_⟩
  · rw [e3, List.length_set]
  · rw [ei, him]

theorem apply_reuses_stdlib_context_witness :
    ∃ w3 nodeT pre,
      demoExt.transform 0 Preamble.empty w3 (Stmt.node 8) = .ok (nodeT, pre, demoWorld2) ∧
      w3.ctxs = demoWorld1.ctxs.set 0
        (definesCtx demoExt [] { (⟨"main.seq", MODULE_MAIN, false, ()⟩ : SimplifyContext Unit)
          with filename := "other.seq", moduleName := MODULE_MAIN }) ∧
      w3.ctxs.length = demoWorld1.ctxs.length ∧
      w3.cache.imports = demoWorld1.cache.imports :=
  apply_reuses_stdlib_context demoExt demoWorld1 (Stmt.node 8) "other.seq" [] false
    ⟨"/lib/stdlib/internal/__init__.seq", some 0⟩ 0 ⟨"main.seq", MODULE_MAIN, false, ()⟩
    demoSuite2 [] demoWorld2 rfl rfl rfl rfl


/-! ### Defines and the standard-library path -/

/-- C12 (the code does not do what the claim says): `std::stoll` reads the leading
`12` of `"12abc"` and ignores the rest, so an `apply` with the define `N=12abc`
raises no error and records `N` with the text `12abc` and the value 12, while
`"abc"` and the empty string are rejected with the define error. -/
theorem apply_accepts_trailing_garbage :
    stoll "12abc" = some 12 ∧ stoll "abc" = none ∧ stoll "" = none ∧
    (∃ suite w, apply stollExt demoWorld1 (Stmt.node 8) "other.seq" [("N", "12abc", 0)] false
      = .ok (suite, [("N", "12abc", 12)], w)) ∧
    apply stollExt demoWorld1 (Stmt.node 8) "other.seq" [("N", "abc", 0)] false
      = .error "parameter 'N' is not a valid integer" ∧
    apply stollExt demoWorld1 (Stmt.node 8) "other.seq" [("N", "", 0)] false
      = .error "parameter 'N' is not a valid integer" := by
  refine ⟨by decide, by decide, by decide, ⟨_, _, rfl⟩, rfl, rfl⟩

/-- C13 (the code does not do what the claim says): when the standard-library path
is the seven characters `lib.seq`, `size() - 12` wraps around and `substr` throws
`std::out_of_range`; the bootstrap does not fail with "cannot load standard
library". An empty path and a long path with another ending do give that error,
and a path ending in `__init__.seq` is kept, or has its ending replaced by
`__init_test__.seq` when the barebones flag is set. -/
theorem bootstrap_short_path_out_of_range :
    bootstrap shortPathExt demoWorld false = .error "out_of_range" ∧
    apply shortPathExt demoWorld (Stmt.node 7) "main.seq" [] false = .error "out_of_range" ∧
    bootstrap noPathExt demoWorld false = .error "cannot load standard library" ∧
    bootstrap plainPathExt demoWorld false = .error "cannot load standard library" ∧
    mapFind STDLIB_IMPORT demoWorld1.cache.imports
      = some ⟨"/lib/stdlib/internal/__init__.seq", some 0⟩ ∧
    mapFind STDLIB_IMPORT demoWorldBare.cache.imports
      = some ⟨"/lib/stdlib/internal/__init_test__.seq", some 0⟩ := by
  refine ⟨rfl, rfl, rfl, rfl, rfl, rfl⟩


/-! ### Pattern compiler -/

theorem validateScalar_ok_iff (expected t : PatType) :
    validateScalar expected t = .ok () ↔ (!(t.is expected)) = false := by
  unfold validateScalar
  cases h : t.is expected <;> simp

mutual
/-- Validation succeeds exactly when there is no shape mismatch. -/
theorem validate_ok_iff : ∀ (p : Pattern) (t : PatType),
    validate p t = .ok () ↔ shapeMismatch p t = false
  | Pattern.wildcard _, _ => by simp [validate, shapeMismatch]
  | Pattern.int _, t => by
    simp only [validate, shapeMismatch]; exact validateScalar_ok_iff _ t
  | Pattern.float _, t => by
    simp only [validate, shapeMismatch]; exact validateScalar_ok_iff _ t
  | Pattern.bool _, t => by
    simp only [validate, shapeMismatch]; exact validateScalar_ok_iff _ t
  | Pattern.record ps, PatType.record ts => by
    have ih := validateMembers_ok_iff ps ts
    simp only [validate, shapeMismatch]
    by_cases hl : ts.length = ps.length
    · simp [hl, ih]
    · simp [hl]
  | Pattern.record _, PatType.int => by simp [validate, shapeMismatch]
  | Pattern.record _, PatType.float => by simp [validate, shapeMismatch]
  | Pattern.record _, PatType.bool => by simp [validate, shapeMismatch]
  | Pattern.record _, PatType.any => by simp [validate, shapeMismatch]
  | Pattern.record _, PatType.other _ => by simp [validate, shapeMismatch]
/-- The same for the loop over the members. -/
theorem validateMembers_ok_iff : ∀ (ps : List Pattern) (ts : List PatType),
    validateMembers ps ts = .ok () ↔ shapeMismatchAny ps ts = false
  | [], _ => by simp [validateMembers, shapeMismatchAny]
  | _ :: _, [] => by simp [validateMembers, shapeMismatchAny]
  | p :: ps, t :: ts => by
    have ih1 := validate_ok_iff p t
    have ih2 := validateMembers_ok_iff ps ts
    simp only [validateMembers, shapeMismatchAny, Bool.or_eq_false_iff]
    cases hv : validate p t with
    | error e =>
      have : ¬ shapeMismatch p t = false := fun h => by
        rw [ih1.2 h] at hv; cases hv
      simp [this]
    | ok u =>
      have h1 : shapeMismatch p t = false := ih1.1 (by rw [hv])
      simp [h1, ih2]
end


theorem drop_eq_cons {α : Type} : ∀ (l : List α) (i : Nat) (a : α) (r : List α),
    l.drop i = a :: r → l.get? i = some a ∧ l.drop (i + 1) = r := by
  intro l
  induction l with
  | nil => intro i a r h; simp at h
  | cons x l ih =>
    intro i a r h
    cases i with
    | zero =>
      simp only [List.drop, List.cons.injEq] at h
      exact ⟨by rw [← h.1]; rfl, by simpa using h.2⟩
    | succ i =>
      have := ih i a r (by simpa using h)
      exact ⟨by simpa using this.1, by simpa using this.2⟩

theorem evalAnd_true (a b : Option RVal) :
    evalAnd a b = some (RVal.bit true) ↔ a = some (RVal.bit true) ∧ b = some (RVal.bit true) := by
  unfold evalAnd
  split
  · rename_i p q
    simp only [Option.some.injEq, RVal.bit.injEq, Bool.and_eq_true]
  · rename_i hno
    constructor
    · intro h; cases h
    · rintro ⟨h1, h2⟩
      exact (hno true true h1 h2).elim

theorem holds_iff (x : RVal) (v : Val) : holds x v ↔ eval x v = some (RVal.bit true) := by
  unfold holds
  constructor
  · rintro ⟨b, hb, rfl⟩; exact hb
  · intro h; exact ⟨true, h, rfl⟩

theorem holds_and (x : RVal) (a b : Val) :
    holds x (Val.and a b) ↔ holds x a ∧ holds x b := by
  simp only [holds_iff, eval, evalAnd_true]

theorem holds_true (x : RVal) : holds x (Val.constInt LType.i1 1) :=
  ⟨true, rfl, rfl⟩

/-- A failed validation is thrown by `codegen` with the block untouched. -/
theorem codegen_of_validate_error (base : Ptr) (p : Pattern) (t : PatType) (v : Val)
    (s : CgState) (e : String) (h : validate p t = .error e) :
    codegen base p t v s = (.error e, s) := by
  cases p with
  | wildcard x => simp [validate] at h
  | int n => simp only [codegen, h]
  | float d => simp only [codegen, h]
  | bool b => simp only [codegen, h]
  | record ps => simp only [codegen, h]

mutual
/-- After a successful validation `codegen` returns a test. -/
theorem codegen_of_validate_ok (base : Ptr) : ∀ (p : Pattern) (t : PatType) (v : Val)
    (s : CgState), validate p t = .ok () → ∃ r s2, codegen base p t v s = (.ok r, s2)
  | Pattern.wildcard x, t, v, s, _ => ⟨_, _, rfl⟩
  | Pattern.int n, t, v, s, h => by simp only [codegen, h]; exact ⟨_, _, rfl⟩
  | Pattern.float d, t, v, s, h => by simp only [codegen, h]; exact ⟨_, _, rfl⟩
  | Pattern.bool b, t, v, s, h => by simp only [codegen, h]; exact ⟨_, _, rfl⟩
  | Pattern.record ps, PatType.record ts, v, s, h => by
    have h2 := h
    simp only [validate] at h2
    split at h2
    · cases h2
    · rename_i hl
      have hlen : ps.length = ts.length := by
        have := not_not.1 hl
        exact this.symm
      obtain ⟨r, s2, subs, hr, _⟩ :=
        codegenMembers_spec base ps ts ts v 0 (Val.constInt LType.i1 1) s h2 hlen rfl
      exact ⟨r, s2, by simp only [codegen, h]; exact hr⟩
  | Pattern.record _, PatType.int, _, _, h => by simp [validate] at h
  | Pattern.record _, PatType.float, _, _, h => by simp [validate] at h
  | Pattern.record _, PatType.bool, _, _, h => by simp [validate] at h
  | Pattern.record _, PatType.any, _, _, h => by simp [validate] at h
  | Pattern.record _, PatType.other _, _, _, h => by simp [validate] at h
/-- The loop of `RecordPattern::codegen` on validated members: it returns, the
sub-tests are those of the sub-patterns on the members, and the result holds
exactly when the conjunction so far and every sub-test hold. -/
theorem codegenMembers_spec (base : Ptr) : ∀ (ps : List Pattern) (ts ts0 : List PatType)
    (v : Val) (i : Nat) (res : Val) (s : CgState),
    validateMembers ps ts = .ok () → ps.length = ts.length → ts0.drop i = ts →
    ∃ r s2 subs, codegenMembers base ps (PatType.record ts0) v i res s = (.ok r, s2) ∧
      SubTests base v i ps ts subs ∧
      ∀ x, holds x r ↔ holds x res ∧ ∀ sub ∈ subs, holds x sub
  | [], [], ts0, v, i, res, s, _, _, _ =>
    ⟨res, s, [], rfl, trivial, fun x => by simp⟩
  | [], _ :: _, _, _, _, _, _, _, hl, _ => by simp at hl
  | _ :: _, [], _, _, _, _, _, _, hl, _ => by simp at hl
  | p :: ps, t :: ts, ts0, v, i, res, s, hv, hl, hd => by
    obtain ⟨hget, hdrop⟩ := drop_eq_cons ts0 i t ts hd
    have hv2 := hv
    simp only [validateMembers] at hv2
    cases hp : validate p t with
    | error e => rw [hp] at hv2; cases hv2
    | ok u =>
      rw [hp] at hv2
      simp only at hv2
      obtain ⟨sub, s2, hsub⟩ := codegen_of_validate_ok base p t (Val.memb v (i + 1))
        (emit s (Instr.memb v (i + 1))) hp
      obtain ⟨r, s3, subs, hr, hsubs, hholds⟩ :=
        codegenMembers_spec base ps ts ts0 v (i + 1) (Val.and res sub)
          (emit s2 (Instr.and res sub)) hv2 (by simpa using hl) hdrop
      refine ⟨r, s3, sub :: subs, ?_, ⟨⟨_, _, hsub⟩, hsubs⟩, ?_⟩
      · simp only [codegenMembers, PatType.membType, hget, hsub]
        exact hr
      · intro x
        rw [hholds x, holds_and]
        simp only [List.mem_cons, forall_eq_or_imp]
        tauto
end


/-- C14: `codegen` of a pattern throws a validation error exactly when, somewhere in
the tree, a scalar-literal pattern meets a type other than its own scalar type
or a record pattern meets a non-record type or a record type with another
member count; when it throws, the block is as it was before the call, so no
instruction has been emitted. A record pattern against a record type of another
arity throws the element-count error whatever the value, a wildcard at the top
never throws and a wildcard inside a tree is never a mismatch. -/
theorem codegen_fails_iff_shape_mismatch (base : Ptr) (p : Pattern) (t : PatType) (v : Val)
    (s : CgState) :
    ((∃ e, (codegen base p t v s).1 = .error e) ↔ shapeMismatch p t = true) ∧
    ((∃ e, (codegen base p t v s).1 = .error e) → (codegen base p t v s).2 = s) ∧
    (∀ (ps : List Pattern) (ts : List PatType), ps.length ≠ ts.length →
      codegen base (Pattern.record ps) (PatType.record ts) v s
        = (.error "record element count mismatch in pattern", s)) ∧
    (∀ x, ∃ r s2, codegen base (Pattern.wildcard x) t v s = (.ok r, s2)) ∧
    (∀ x t2, shapeMismatch (Pattern.wildcard x) t2 = false) := by
  refine ⟨?_, ?_, ?_, fun x => ⟨_, _, rfl⟩, fun x t2 => rfl⟩
  · cases hv : validate p t with
    | error e =>
      rw [codegen_of_validate_error base p t v s e hv]
      have hm : shapeMismatch p t = true := by
        cases hsm : shapeMismatch p t with
        | true => rfl
        | false => rw [(validate_ok_iff p t).2 hsm] at hv; cases hv
      exact ⟨fun _ => hm, fun _ => ⟨e, rfl⟩⟩
    | ok u =>
      obtain ⟨r, s2, hr⟩ := codegen_of_validate_ok base p t v s hv
      rw [hr]
      have hm : shapeMismatch p t = false := (validate_ok_iff p t).1 hv
      rw [hm]
      constructor
      · rintro ⟨e, he⟩; cases he
      · intro h; cases h
  · rintro ⟨e, he⟩
    cases hv : validate p t with
    | error e2 => rw [codegen_of_validate_error base p t v s e2 hv]
    | ok u =>
      obtain ⟨r, s2, hr⟩ := codegen_of_validate_ok base p t v s hv
      rw [hr] at he; cases he
  · intro ps ts hl
    apply codegen_of_validate_error
    simp only [validate]
    rw [if_pos (fun h => hl h.symm)]

theorem codegen_fails_iff_shape_mismatch_witness :
    codegen 1 pat1Wild (PatType.record [PatType.int, PatType.int, PatType.int]) Val.matched
        emptyCg
      = (.error "record element count mismatch in pattern", emptyCg) :=
  (codegen_fails_iff_shape_mismatch 1 pat1Wild intPair Val.matched emptyCg).2.2.1
    [Pattern.int 1, Pattern.wildcard 0] [PatType.int, PatType.int, PatType.int] (by decide)

/-- C15: for a record pattern that validates against a record type, `codegen`
returns a test that holds exactly when the test of every sub-pattern holds, the
`i`-th sub-pattern being compiled against the type and the value of member
`i + 1`, left to right; the test of the empty record pattern is the constant
true. A wildcard returns the constant true, stores the value it is given and
assigns its variable that value under the type it is given. The pattern `(1, _)`
holds on `(1, 9)` with the wildcard bound to member 2, whose value is 9, and
does not hold on `(2, 9)`. -/
theorem record_test_is_conjunction (base : Ptr) (ps : List Pattern) (ts : List PatType)
    (v : Val) (s : CgState)
    (hval : validate (Pattern.record ps) (PatType.record ts) = .ok ()) :
    (∃ r s2 subs,
      codegen base (Pattern.record ps) (PatType.record ts) v s = (.ok r, s2) ∧
      SubTests base v 0 ps ts subs ∧
      ∀ x, holds x r ↔ ∀ sub ∈ subs, holds x sub) ∧
    (codegen base (Pattern.record []) (PatType.record []) v s
        = (.ok (Val.constInt LType.i1 1), s) ∧
      ∀ x, holds x (Val.constInt LType.i1 1)) ∧
    (∀ y t w s1, codegen base (Pattern.wildcard y) t w s1
      = (.ok (Val.constInt LType.i1 1),
          { block := s1.block ++ [Instr.storeInAlloca t w],
            vars := s1.vars ++ [⟨y, base, t, w⟩] })) ∧
    ((codegen 1 pat1Wild intPair Val.matched emptyCg).1 = .ok pat1WildTest ∧
      eval (RVal.tuple [RVal.int 1, RVal.int 9]) pat1WildTest = some (RVal.bit true) ∧
      (codegen 1 pat1Wild intPair Val.matched emptyCg).2.vars
        = [⟨0, 1, PatType.int, Val.memb Val.matched 2⟩] ∧
      eval (RVal.tuple [RVal.int 1, RVal.int 9]) (Val.memb Val.matched 2) = some (RVal.int 9) ∧
      eval (RVal.tuple [RVal.int 2, RVal.int 9]) pat1WildTest = some (RVal.bit false)) := by
  refine ⟨?_, ⟨rfl, fun x => holds_true x⟩, fun y t w s1 => rfl, rfl, rfl, rfl, rfl, rfl⟩
  have h2 := hval
  simp only [validate] at h2
  split at h2
  · cases h2
  · rename_i hl
    have hlen : ps.length = ts.length := (not_not.1 hl).symm
    obtain ⟨r, s2, subs, hr, hsubs, hholds⟩ :=
      codegenMembers_spec base ps ts ts v 0 (Val.constInt LType.i1 1) s h2 hlen rfl
    refine ⟨r, s2, subs, by simp only [codegen, hval]; exact hr, hsubs, ?_⟩
    intro x
    rw [hholds x]
    exact ⟨fun h => h.2, fun h => ⟨holds_true x, h⟩⟩

theorem record_test_is_conjunction_witness :
    ∃ r s2 subs,
      codegen 1 pat1Wild intPair Val.matched emptyCg = (.ok r, s2) ∧
      SubTests 1 Val.matched 0 [Pattern.int 1, Pattern.wildcard 0]
        [PatType.int, PatType.int] subs ∧
      ∀ x, holds x r ↔ ∀ sub ∈ subs, holds x sub :=
  (record_test_is_conjunction 1 [Pattern.int 1, Pattern.wildcard 0] [PatType.int, PatType.int]
    Val.matched emptyCg rfl).1

/-- C16 (the code does not do what the claim says for boolean literals): on its own
scalar type an integer pattern emits one `icmp eq` of the matched value with the
64-bit constant of its literal and a float pattern one ordered `fcmp oeq` with
the floating-point constant of its literal, but a boolean pattern builds the
integer constant of its literal and emits `fcmp oeq`, a floating-point
comparison whose operands are not floating-point values. -/
theorem scalar_pattern_comparisons (base : Ptr) (n : Int) (d : Dbl) (b : Bool) (v : Val)
    (s : CgState) :
    codegen base (Pattern.int n) PatType.int v s
      = (.ok (Val.icmpEq v (Val.constInt (LType.of PatType.int) n)),
          { s with block := s.block ++
              [Instr.icmpEq v (Val.constInt (LType.of PatType.int) n)] }) ∧
    codegen base (Pattern.float d) PatType.float v s
      = (.ok (Val.fcmpOEq v (Val.constFP d)),
          { s with block := s.block ++ [Instr.fcmpOEq v (Val.constFP d)] }) ∧
    codegen base (Pattern.bool b) PatType.bool v s
      = (.ok (Val.fcmpOEq v (Val.constInt (LType.of PatType.bool) (if b then 1 else 0))),
          { s with block := s.block ++
              [Instr.fcmpOEq v (Val.constInt (LType.of PatType.bool) (if b then 1 else 0))] }) ∧
    ∀ x, eval x (Val.fcmpOEq v (Val.constInt (LType.of PatType.bool) (if b then 1 else 0)))
      = none := by
  refine ⟨rfl, rfl, rfl, ?_⟩
  intro x
  simp only [eval, constValue]
  unfold evalFCmpOEq
  split
  · rename_i h1 h2; cases h2
  · rename_i h1 h2; cases h2
  · rfl


/-! ### Function handles in getContext -/

end Seq
